import Mathlib

/-!
Verification of the RaffleManager data generator and its validators.

The Python sources are embedded shallowly:
* `format_lua_value`, the account/roster/mail generators and
  `get_unique_filename` come from `generate_raffle_data.py`;
* the pattern scanners and `validate_roster_data` come from `validate.py`;
* `check_amounts` comes from `check_amounts.py`.

Randomness (`random.randint`, `random.choice`, `random.random`) is modelled
by an explicit entropy stream threaded through a generator state; calls of
`random.randint` with an empty range return `none`, modelling the
`ValueError` Python raises there.
-/

namespace Raffle

/-! ### Decimal rendering of numbers, modelling Python `str()` -/

/-- The ASCII digit character for a digit value (values ≥ 9 give the digit 9,
which is the only way the function is ever applied out of range). -/
def natDigitChar : Nat → Char
  | 0 => '0' | 1 => '1' | 2 => '2' | 3 => '3' | 4 => '4'
  | 5 => '5' | 6 => '6' | 7 => '7' | 8 => '8' | _ => '9'

/-- Fuel-driven most-significant-first decimal expansion of a `Nat`. -/
def toDecimalAux : Nat → Nat → List Char
  | 0, _ => []
  | fuel + 1, n =>
    if n = 0 then [] else toDecimalAux fuel (n / 10) ++ [natDigitChar (n % 10)]

/-- Decimal digit characters of `n`, most significant first; `0` gives `['0']`. -/
def natDecChars (n : Nat) : List Char :=
  if n = 0 then ['0'] else toDecimalAux n n

/-- Python `str(n)` for a non-negative integer. -/
def pyNatStr (n : Nat) : String := ⟨natDecChars n⟩

/-- Python `str(i)` for an arbitrary integer. -/
def pyIntRepr (i : Int) : String :=
  if i < 0 then "-" ++ pyNatStr i.natAbs else pyNatStr i.toNat

/-- ASCII digit test, modelling `\d` in the validators' patterns. -/
def isDigitChar (c : Char) : Bool := 48 ≤ c.toNat && c.toNat ≤ 57

/-- Fold a big-endian digit string onto an accumulator, as the validators'
`int()` conversion does on the matched digit group. -/
def parseFold : List Char → Nat → Nat
  | [], acc => acc
  | c :: cs, acc => parseFold cs (acc * 10 + (c.toNat - 48))

/-! ### The value trees serialized by `format_lua_value` -/

/-- A Python dict key as used by the generator (`str` or `int`). -/
inductive PyKey where
  | str : String → PyKey
  | int : Int → PyKey
deriving DecidableEq

/-- The Python values fed to `format_lua_value`: dicts (insertion-ordered
association lists), lists, strings, ints and bools. -/
inductive PyVal where
  | dict : List (PyKey × PyVal) → PyVal
  | list : List PyVal → PyVal
  | str : String → PyVal
  | int : Int → PyVal
  | bool : Bool → PyVal

/-- `value.replace('"', '\\"')` on the character list. -/
def escChars : List Char → List Char
  | [] => []
  | c :: cs => if c = '"' then '\\' :: '"' :: escChars cs else c :: escChars cs

/-- Python `value.replace('"', '\\"')`. -/
def escapeQuotes (s : String) : String := ⟨escChars s.data⟩

/-- `"    " * indent`. -/
def indentSpaces : Nat → String
  | 0 => ""
  | k + 1 => indentSpaces k ++ "    "

/-- The rendered dict key: `f'["{key}"]'` for strings (no escaping),
`f"[{key}]"` for ints. -/
def luaKeyStr : PyKey → String
  | .str s => "[\"" ++ s ++ "\"]"
  | .int k => "[" ++ pyIntRepr k ++ "]"

mutual

/-- `RaffleDataGenerator.format_lua_value`.  A dict or list renders as
`"\n".join(["{", entryLines…, spaces + "}"])`, which is the brace, then for
each entry a newline plus its line, then a newline plus the closing line.
Scalars: strings are quote-escaped and quoted.  Integers hit the Python
branch `isinstance(value, (int, float))` and render via `str()`.  Booleans
*also* hit that branch, because `bool` is a subclass of `int` in Python, so
they render as `str(True)/str(False)` = `"True"/"False"`; the later
`isinstance(value, bool)` branch returning `"true"/"false"` is unreachable. -/
def format_lua_value (value : PyVal) (indent : Nat) : String :=
  match value with
  | .dict kvs =>
    if kvs.isEmpty then "\x7b\x7d"
    else "\x7b" ++ formatEntries kvs (indentSpaces indent) indent
      ++ "\n" ++ indentSpaces indent ++ "\x7d"
  | .list items =>
    if items.isEmpty then "\x7b\x7d"
    else "\x7b" ++ formatItems items (indentSpaces indent) indent 1
      ++ "\n" ++ indentSpaces indent ++ "\x7d"
  | .str s => "\"" ++ escapeQuotes s ++ "\""
  | .int n => pyIntRepr n
  | .bool b => if b then "True" else "False"

/-- The dict entry lines: each contributes
`"\n" + spaces + "    " + key + " = " + value + ","`. -/
def formatEntries (kvs : List (PyKey × PyVal)) (spaces : String) (indent : Nat) : String :=
  match kvs with
  | [] => ""
  | (k, v) :: rest =>
    "\n" ++ spaces ++ "    " ++ luaKeyStr k ++ " = " ++ format_lua_value v (indent + 1)
      ++ "," ++ formatEntries rest spaces indent

/-- The list item lines, with 1-based indices from `enumerate(value, 1)`. -/
def formatItems (items : List PyVal) (spaces : String) (indent : Nat) (i : Nat) : String :=
  match items with
  | [] => ""
  | v :: rest =>
    "\n" ++ spaces ++ "    [" ++ pyNatStr i ++ "] = " ++ format_lua_value v (indent + 1)
      ++ "," ++ formatItems rest spaces indent (i + 1)

end

/-- Ordered association-list lookup on a dict value (first string key match). -/
def lookupKey : List (PyKey × PyVal) → String → Option PyVal
  | [], _ => none
  | (k, v) :: rest, key =>
    match k with
    | .str s => if s = key then some v else lookupKey rest key
    | .int _ => lookupKey rest key

/-- Look a string key up in a dict value. -/
def dictLookup (v : PyVal) (key : String) : Option PyVal :=
  match v with
  | .dict kvs => lookupKey kvs key
  | _ => none

/-- The string keys of a dict value, in insertion order. -/
def dictKeys (v : PyVal) : List PyKey :=
  match v with
  | .dict kvs => kvs.map Prod.fst
  | _ => []

/-! ### Pattern scanning, modelling the validators' `re` extraction

Both validators extract numbers with patterns of the shape
`\["FIELD"\]\s*=\s*(\d+)` (the roster pattern additionally requires a comma
after the first three groups, and chains four such components with lazy
`.*?` gaps).  We model a component match at a fixed position, a scan for the
first match (`re.search`, and a lazy gap), and a scan for all
non-overlapping matches (`re.findall`). -/

/-- Python's `\s` character class (ASCII part, which is all that occurs here). -/
def isPySpace (c : Char) : Bool :=
  c = ' ' || c = '\t' || c = '\n' || c = '\r' || c = '\x0b' || c = '\x0c'

/-- Match a literal character sequence at the head, returning the rest. -/
def matchLit : List Char → List Char → Option (List Char)
  | [], cs => some cs
  | _ :: _, [] => none
  | p :: ps, c :: cs => if c = p then matchLit ps cs else none

/-- Greedy `\s*`. -/
def skipSpaces : List Char → List Char
  | [] => []
  | c :: cs => if isPySpace c then skipSpaces cs else c :: cs

/-- Greedy `(\d+)` split: the maximal leading digit run and the rest. -/
def takeDigits : List Char → List Char × List Char
  | [] => ([], [])
  | c :: cs =>
    if isDigitChar c then
      let p := takeDigits cs
      (c :: p.1, p.2)
    else ([], c :: cs)

/-- The literal part `["FIELD"]` of the extraction patterns. -/
def fieldLit (field : String) : List Char :=
  '[' :: '"' :: field.data ++ ['"', ']']

/-- Match one pattern component `LIT\s*=\s*(\d+)` (plus a literal comma after
the group when `withComma` is set, as in the roster pattern's first three
components) at a fixed position.  Returns the captured number and the rest of
the input after the match.  A maximal digit run not followed by a comma
cannot be rescued by regex backtracking (a shortened run would have to be
followed by a digit, not a comma), so the component simply fails there. -/
def matchFieldAt (withComma : Bool) (key : List Char) (cs : List Char) :
    Option (Nat × List Char) :=
  match matchLit key cs with
  | none => none
  | some r1 =>
    match skipSpaces r1 with
    | [] => none
    | e :: r2 =>
      if e = '=' then
        if (takeDigits (skipSpaces r2)).1.isEmpty then none
        else if withComma then
          match (takeDigits (skipSpaces r2)).2 with
          | [] => none
          | c5 :: r5 =>
            if c5 = ',' then
              some (parseFold (takeDigits (skipSpaces r2)).1 0, r5)
            else none
        else some (parseFold (takeDigits (skipSpaces r2)).1 0,
          (takeDigits (skipSpaces r2)).2)
      else none

/-- First match of `f` at or after the current position (`re.search`, and the
extension of a lazy `.*?` gap until the next component matches). -/
def scanFirstAux {α : Type} (f : List Char → Option (α × List Char)) :
    Nat → List Char → Option (α × List Char)
  | 0, _ => none
  | _ + 1, [] => none
  | fuel + 1, c :: cs =>
    match f (c :: cs) with
    | some r => some r
    | none => scanFirstAux f fuel cs

/-- First match of `f` anywhere in `cs`. -/
def scanFirst {α : Type} (f : List Char → Option (α × List Char))
    (cs : List Char) : Option (α × List Char) :=
  scanFirstAux f cs.length cs

/-- All non-overlapping matches of `f`, scanning left to right and resuming
after each match (`re.findall`). -/
def scanAllAux {α : Type} (f : List Char → Option (α × List Char)) :
    Nat → List Char → List α
  | 0, _ => []
  | _ + 1, [] => []
  | fuel + 1, c :: cs =>
    match f (c :: cs) with
    | some (a, rest) => a :: scanAllAux f fuel rest
    | none => scanAllAux f fuel cs

/-- All non-overlapping matches of `f` in `cs`. -/
def scanAllFrom {α : Type} (f : List Char → Option (α × List Char))
    (cs : List Char) : List α :=
  scanAllAux f cs.length cs

/-! ### `check_amounts.py` -/

/-- What `check_amounts` does after reading the file: short-circuit when the
ticket cost pattern has no match or when no amounts match, crash with an
uncaught `ZeroDivisionError` when the extracted ticket cost is `0` and
amounts are present, otherwise report the valid/invalid classification.
The Python function returns `None` in every case; this value records which
path was taken. -/
inductive AmountsOutcome where
  | noTicketCost : AmountsOutcome
  | noAmounts : Nat → AmountsOutcome
  | zeroDivError : Nat → AmountsOutcome
  | report : Nat → List Nat → List Nat → AmountsOutcome
deriving DecidableEq

/-- `re.search(r'\["ticket_cost"\]\s*=\s*(\d+)', content)` (first match). -/
def searchTicketCost (content : String) : Option Nat :=
  match scanFirst (matchFieldAt false (fieldLit "ticket_cost")) content.data with
  | none => none
  | some (n, _) => some n

/-- `re.findall(r'\["amount"\]\s*=\s*(\d+)', content)` converted to ints. -/
def extractAmounts (content : String) : List Nat :=
  scanAllFrom (matchFieldAt false (fieldLit "amount")) content.data

/-- `check_amounts` from `check_amounts.py`, on the file's content. -/
def check_amounts (content : String) : AmountsOutcome :=
  match searchTicketCost content with
  | none => .noTicketCost
  | some tc =>
    let amounts := extractAmounts content
    if amounts.isEmpty then .noAmounts tc
    else if tc = 0 then .zeroDivError tc
    else .report tc (amounts.filter (fun a => a % tc = 0))
      (amounts.filter (fun a => a % tc ≠ 0))

/-- Did `check_amounts` die with an uncaught exception? -/
def amountsCrashed : AmountsOutcome → Bool
  | .zeroDivError _ => true
  | _ => false

/-- The `__main__` block of `check_amounts.py`: wrong argument count prints
usage and exits 1; otherwise `check_amounts` runs, its result is discarded,
and the interpreter exits 0 — unless an exception escaped, which exits 1. -/
def check_amounts_main (argv : List String) (content : String) : Nat :=
  if argv.length ≠ 2 then 1
  else if amountsCrashed (check_amounts content) then 1
  else 0

/-! ### `validate.py` -/

/-- One quadruple extracted by the roster pattern, in group order
`(sales10, purchases30, sales30, purchases10)`. -/
structure RosterQuad where
  sales10 : Nat
  purchases30 : Nat
  sales30 : Nat
  purchases10 : Nat
deriving DecidableEq

/-- One match of the roster pattern
`\["sales10"\]\s*=\s*(\d+),.*?\["purchases30"\]\s*=\s*(\d+),.*?\["sales30"\]\s*=\s*(\d+),.*?\["purchases10"\]\s*=\s*(\d+)`
anchored at the current position (DOTALL).  The lazy `.*?` gaps take the
first position after the previous component where the next component
matches, which `scanFirst` computes. -/
def matchRosterAt (cs : List Char) : Option (RosterQuad × List Char) :=
  match matchFieldAt true (fieldLit "sales10") cs with
  | none => none
  | some (s10, r1) =>
    match scanFirst (matchFieldAt true (fieldLit "purchases30")) r1 with
    | none => none
    | some (p30, r2) =>
      match scanFirst (matchFieldAt true (fieldLit "sales30")) r2 with
      | none => none
      | some (s30, r3) =>
        match scanFirst (matchFieldAt false (fieldLit "purchases10")) r3 with
        | none => none
        | some (p10, r4) => some (⟨s10, p30, s30, p10⟩, r4)

/-- `re.findall(roster_pattern, content, re.DOTALL)` as quadruples. -/
def rosterScan (content : String) : List RosterQuad :=
  scanAllFrom matchRosterAt content.data

/-- The issue messages one extracted quadruple contributes (entry index `i`
is 0-based here; the message shows `i+1`). -/
def quad_issue_msgs (i : Nat) (q : RosterQuad) : List String :=
  (if q.sales10 > q.sales30 then
    ["Entry " ++ pyNatStr (i + 1) ++ ": sales10 (" ++ pyNatStr q.sales10 ++
      ") > sales30 (" ++ pyNatStr q.sales30 ++ ")"]
  else []) ++
  (if q.purchases10 > q.purchases30 then
    ["Entry " ++ pyNatStr (i + 1) ++ ": purchases10 (" ++ pyNatStr q.purchases10 ++
      ") > purchases30 (" ++ pyNatStr q.purchases30 ++ ")"]
  else [])

/-- The `issues` list accumulated over `enumerate(matches)`. -/
def roster_issues_aux : Nat → List RosterQuad → List String
  | _, [] => []
  | i, q :: qs => quad_issue_msgs i q ++ roster_issues_aux (i + 1) qs

/-- The full `issues` list of `validate_roster_data`. -/
def roster_issues (quads : List RosterQuad) : List String :=
  roster_issues_aux 0 quads

/-- `validate_roster_data` from `validate.py`: extract all quadruples,
collect issues, return `True` exactly when there are none. -/
def validate_roster_data (content : String) : Bool :=
  (roster_issues (rosterScan content)).isEmpty

/-- The `__main__` block of `validate.py`: usage error exits 1, otherwise
exit 0 on `True` and 1 on `False`. -/
def validate_main (argv : List String) (content : String) : Nat :=
  if argv.length ≠ 2 then 1
  else if validate_roster_data content then 0 else 1

/-! ### The generator: random primitives and word lists -/

/-- Generator state: an entropy stream with a cursor (modelling the
`random` module), the two uniqueness pools of `RaffleDataGenerator`, and
the (frozen) value `int(time.time())`. -/
structure Gen where
  entropy : Nat → Nat
  pos : Nat
  used_usernames : List String
  used_mail_ids : List String
  now : Nat

/-- Take the next value from the entropy stream. -/
def draw (s : Gen) : Nat × Gen :=
  (s.entropy s.pos, { s with pos := s.pos + 1 })

/-- `random.randint(lo, hi)`: a uniform draw from the inclusive range;
raises `ValueError` (modelled as `none`) when the range is empty. -/
def randint (lo hi : Int) (s : Gen) : Option (Int × Gen) :=
  let (k, s1) := draw s
  if hi < lo then none
  else some (lo + (k : Int) % (hi - lo + 1), s1)

/-- `random.choice(xs)` on a list of strings: an element selected by the
entropy stream. -/
def pyChoice (xs : List String) (s : Gen) : String × Gen :=
  let (k, s1) := draw s
  (xs.getD (k % xs.length) "", s1)

/-- A `random.random() < p` branch, for `p` given in tenths, driven by the
entropy stream. -/
def randomLt (tenths : Nat) (s : Gen) : Bool × Gen :=
  let (k, s1) := draw s
  (decide (k % 10 < tenths), s1)

/-- The adjective word list of `generate_raffle_data.py`. -/
def ADJECTIVES : List String := [
  "active", "ancient", "bold", "brave", "calm", "clever", "cool", "curious",
  "daring", "eager", "epic", "fast", "gentle", "happy", "keen", "lucky",
  "mighty", "noble", "proud", "quick", "royal", "silent", "swift", "wise",
  "young", "zealous", "bright", "cosmic", "divine", "fierce", "golden",
  "humble", "iron", "jovial", "kind", "lunar", "magic", "nimble", "ocean",
  "plasma", "quantum", "radiant", "stellar", "thunder", "ultra", "vibrant",
  "wild", "xenial", "yellow", "zesty"]

/-- The noun word list of `generate_raffle_data.py`. -/
def NOUNS : List String := [
  "archer", "baker", "crafter", "dancer", "explorer", "fighter", "guardian",
  "hunter", "knight", "mage", "navigator", "oracle", "paladin", "ranger",
  "scholar", "trader", "warrior", "wizard", "alchemist", "bard", "cleric",
  "druid", "engineer", "forger", "gladiator", "herbalist", "inventor",
  "jeweler", "keeper", "librarian", "merchant", "nomad", "observer",
  "protector", "questor", "runner", "seeker", "templar", "voyager", "weaver",
  "crystal", "phoenix", "dragon", "storm", "shadow", "flame", "frost",
  "thunder", "lightning", "mystic"]

/-- The guild ranks. -/
def RANKS : List String :=
  ["Recruit", "Member", "Veteran", "Officer", "Guild Master"]

/-- The mail subject pool. -/
def MAIL_SUBJECTS : List String := [
  "tix", "tickets", "raffle", "raffle tickets", "weekly raffle",
  "raffle entry", "BBC raffle", "guild raffle", "raffle tix",
  "tickets please", "raffle please", "", "Gold", "entry fee"]

/-- Python `str.title()`: each alphabetic character is uppercased when the
previous character is not alphabetic and lowercased otherwise. -/
def pyTitleAux : List Char → Bool → List Char
  | [], _ => []
  | c :: cs, prevAlpha =>
    (if c.isAlpha then (if prevAlpha then c.toLower else c.toUpper) else c) ::
      pyTitleAux cs c.isAlpha

/-- Python `s.title()`. -/
def pyTitle (s : String) : String := ⟨pyTitleAux s.data false⟩

/-! ### `generate_username` -/

/-- One candidate built inside the `generate_username` loop: an adjective
and a noun, both `title()`-cased, with probability ~0.3 a numeric suffix
from `randint(1, 999)`. -/
def attempt_name (s : Gen) : String × Gen :=
  let (adjective, s1) := pyChoice ADJECTIVES s
  let (noun, s2) := pyChoice NOUNS s1
  let (vary, s3) := randomLt 3 s2
  if vary then
    match randint 1 999 s3 with
    | some (num, sx) =>
      ("@" ++ pyTitle adjective ++ pyTitle noun ++ pyIntRepr num, sx)
    | none => ("", s3)  -- unreachable: the range [1, 999] is nonempty
  else ("@" ++ pyTitle adjective ++ pyTitle noun, s3)

/-- The bounded retry loop of `generate_username` (`while attempts < 100`):
accept the candidate if it is not in the used pool, else retry.  Returns
`none` when all attempts collide (state still advanced). -/
def username_attempts : Nat → Gen → Option String × Gen
  | 0, s => (none, s)
  | fuel + 1, s =>
    let (username, s4) := attempt_name s
    if username ∈ s4.used_usernames then username_attempts fuel s4
    else (some username,
      { s4 with used_usernames := username :: s4.used_usernames })

/-- `str(int(time.time()))[-6:]`: the last six characters (or all of them
when there are fewer). -/
def last6 (l : List Char) : List Char := l.drop (l.length - 6)

/-- `RaffleDataGenerator.generate_username`: up to 100 attempts from the
word lists, then the timestamp fallback `"@" + adjective.title() + ts`. -/
def generate_username (s : Gen) : String × Gen :=
  match username_attempts 100 s with
  | (some u, s1) => (u, s1)
  | (none, s1) =>
    let ts : String := ⟨last6 (natDecChars s1.now)⟩
    let (adjective, s2) := pyChoice ADJECTIVES s1
    let username := "@" ++ pyTitle adjective ++ ts
    (username, { s2 with used_usernames := username :: s2.used_usernames })

/-! ### `generate_roster_data` -/

/-- The 10-day counterpart of a 30-day total: `0` when the total is `0`
(the guarded edge case), otherwise `randint(0, total30)`. -/
def counter10_of (total30 : Int) (s : Gen) : Option (Int × Gen) :=
  if total30 = 0 then some ((0 : Int), s) else randint 0 total30 s

/-- One iteration of the `generate_roster_data` loop: 30-day totals first,
then the 10-day totals via `counter10_of`, then the entry dict in its
insertion order
`account, joined, sales10, purchases30, sales30, rank, purchases10`. -/
def generate_roster_entry (s : Gen) : Option (PyVal × Gen) := do
  let (sales30, s) ← randint 0 5000000 s
  let (purchases30, s) ← randint 0 100000 s
  let (sales10, s) ← counter10_of sales30 s
  let (purchases10, s) ← counter10_of purchases30 s
  let (account, s) := generate_username s
  let (joined, s) ← randint 0 (s.now : Int) s
  let (rank, s) := pyChoice RANKS s
  some (PyVal.dict [
    (.str "account", .str account),
    (.str "joined", .int joined),
    (.str "sales10", .int sales10),
    (.str "purchases30", .int purchases30),
    (.str "sales30", .int sales30),
    (.str "rank", .str rank),
    (.str "purchases10", .int purchases10)], s)

/-- `RaffleDataGenerator.generate_roster_data`. -/
def generate_roster_data (s : Gen) : Nat → Option (List PyVal × Gen)
  | 0 => some ([], s)
  | n + 1 => do
    let (e, s1) ← generate_roster_entry s
    let (rest, s2) ← generate_roster_data s1 n
    some (e :: rest, s2)

/-! ### `generate_mail_data` -/

/-- `RaffleDataGenerator.generate_mail_id`: draw 10-digit ids until one is
not in the used pool.  The Python loop is `while True`; the fuel models the
possibility that the entropy stream never leaves the used pool. -/
def generate_mail_id : Nat → Gen → Option (String × Gen)
  | 0, _ => none
  | fuel + 1, s =>
    match randint 2700000000 2999999999 s with
    | none => none
    | some (mid, s1) =>
      let mail_id := pyIntRepr mid
      if mail_id ∈ s1.used_mail_ids then generate_mail_id fuel s1
      else some (mail_id, { s1 with used_mail_ids := mail_id :: s1.used_mail_ids })

/-- The valid branch of the mail amount: `randint(1, 1000) * ticket_cost`. -/
def mail_amount_valid (ticket_cost : Int) (s : Gen) : Option (Int × Gen) := do
  let (num_tickets, s) ← randint 1 1000 s
  some (num_tickets * ticket_cost, s)

/-- The invalid branch of the mail amount in `generate_mail_data`:
`base_amount = randint(1, 1000) * ticket_cost` plus an offset
`randint(1, ticket_cost - 1)`.  For `ticket_cost = 1` the offset range is
empty and `random.randint` raises `ValueError` (`none` here). -/
def mail_amount_invalid (ticket_cost : Int) (s : Gen) : Option (Int × Gen) := do
  let (num, s) ← randint 1 1000 s
  let base_amount := num * ticket_cost
  let (offset, s) ← randint 1 (ticket_cost - 1) s
  some (base_amount + offset, s)

/-- One iteration of the `generate_mail_data` loop: the 90/10 branch picks
the valid or the invalid amount, then the entry dict
`subject, id, amount, user`. -/
def generate_mail_entry (ticket_cost : Int) (idFuel : Nat) (s : Gen) :
    Option (PyVal × Gen) := do
  let (isValid, s) := randomLt 9 s
  let (amount, s) ← if isValid then mail_amount_valid ticket_cost s
    else mail_amount_invalid ticket_cost s
  let (subject, s) := pyChoice MAIL_SUBJECTS s
  let (mid, s) ← generate_mail_id idFuel s
  let (user, s) := generate_username s
  some (PyVal.dict [
    (.str "subject", .str subject),
    (.str "id", .str mid),
    (.str "amount", .int amount),
    (.str "user", .str user)], s)

/-- `RaffleDataGenerator.generate_mail_data`. -/
def generate_mail_data (ticket_cost : Int) (idFuel : Nat) (s : Gen) :
    Nat → Option (List PyVal × Gen)
  | 0 => some ([], s)
  | n + 1 => do
    let (e, s1) ← generate_mail_entry ticket_cost idFuel s
    let (rest, s2) ← generate_mail_data ticket_cost idFuel s1 n
    some (e :: rest, s2)

/-- The `main` validation of the ticket cost: accepted exactly when it is
positive (`if args.ticket_cost <= 0: … return 1`). -/
def cli_accepts_ticket_cost (t : Int) : Bool := decide (0 < t)

/-! ### `get_unique_filename` -/

/-- `str.rfind(c)` on a character list: last index of `c`, `-1` if absent. -/
def rfindAux (c : Char) : List Char → Nat → Int → Int
  | [], _, acc => acc
  | x :: xs, i, acc => rfindAux c xs (i + 1) (if x = c then (i : Int) else acc)

/-- Last index of `c` in `cs`, or `-1`. -/
def rfindIdx (c : Char) (cs : List Char) : Int := rfindAux c cs 0 (-1)

/-- `os.path.splitext` (POSIX, separator `/`): split at the last dot when it
comes after the last separator and the base name does not consist solely of
leading dots up to it. -/
def splitext (p : String) : String × String :=
  let cs := p.data
  let sepIndex := rfindIdx '/' cs
  let dotIndex := rfindIdx '.' cs
  if sepIndex < dotIndex then
    if ((cs.take dotIndex.toNat).drop (sepIndex + 1).toNat).any
        (fun c => c != '.') then
      (⟨cs.take dotIndex.toNat⟩, ⟨cs.drop dotIndex.toNat⟩)
    else (p, "")
  else (p, "")

/-- The suffixed candidate `f"{name}_{counter}{ext}"` tried by
`get_unique_filename` for counter `k`. -/
def candName (base : String) (k : Nat) : String :=
  (splitext base).1 ++ "_" ++ pyNatStr k ++ (splitext base).2

/-- The `while True` loop of `get_unique_filename`, with the existing paths
given as the list `fs` (modelling `os.path.exists`).  The fuel models the
loop's unboundedness; `fs.length + 1` always suffices. -/
def unique_loop (fs : List String) (name ext : String) : Nat → Nat → Option String
  | 0, _ => none
  | fuel + 1, counter =>
    let new_name := name ++ "_" ++ pyNatStr counter ++ ext
    if new_name ∈ fs then unique_loop fs name ext fuel (counter + 1)
    else some new_name

/-- `get_unique_filename`: the base name itself when no file exists at it,
otherwise the first `name_k + ext` (k = 1, 2, …) not in `fs`. -/
def get_unique_filename (fs : List String) (base_name : String) : Option String :=
  if base_name ∈ fs then
    unique_loop fs (splitext base_name).1 (splitext base_name).2 (fs.length + 1) 1
  else some base_name

/-! ### Support definitions for the claims -/

/-- A concrete generator state (constant-zero entropy) used in witnesses
and counterexamples. -/
def gen0 : Gen :=
  { entropy := fun _ => 0, pos := 0, used_usernames := [], used_mail_ids := [],
    now := 0 }

/-- The generator-side roster invariant of claim C1, read off an entry
dict: the four counters are present as integers with each 10-day counter
bounded by its 30-day counterpart, and forced to 0 by a 0 counterpart. -/
def rosterEntryOK (e : PyVal) : Prop :=
  ∃ s10 s30 p10 p30 : Int,
    dictLookup e "sales10" = some (.int s10) ∧
    dictLookup e "sales30" = some (.int s30) ∧
    dictLookup e "purchases10" = some (.int p10) ∧
    dictLookup e "purchases30" = some (.int p30) ∧
    s10 ≤ s30 ∧ p10 ≤ p30 ∧ (s30 = 0 → s10 = 0) ∧ (p30 = 0 → p10 = 0)

/-- The integer value held in an optional dict slot (`0` when absent or not
an integer). -/
def natOf : Option PyVal → Nat
  | some (.int v) => v.toNat
  | _ => 0

/-- The quadruple the roster validator should associate to an entry, read
off the entry's own fields. -/
def entryQuadOf (e : PyVal) : RosterQuad :=
  ⟨natOf (dictLookup e "sales10"), natOf (dictLookup e "purchases30"),
    natOf (dictLookup e "sales30"), natOf (dictLookup e "purchases10")⟩

/-- The key sequence every roster entry dict is built with. -/
def rosterKeys : List PyKey :=
  [.str "account", .str "joined", .str "sales10", .str "purchases30",
    .str "sales30", .str "rank", .str "purchases10"]

/-- Structural description of a dict produced by `generate_roster_entry`:
the seven fields in insertion order, non-negative numeric values, and no
`[` character inside the account or rank strings. -/
def goodEntry (e : PyVal) : Prop :=
  ∃ account rank : String, ∃ joined s10 p30 s30 p10 : Int,
    e = .dict [
      (.str "account", .str account),
      (.str "joined", .int joined),
      (.str "sales10", .int s10),
      (.str "purchases30", .int p30),
      (.str "sales30", .int s30),
      (.str "rank", .str rank),
      (.str "purchases10", .int p10)] ∧
    0 ≤ joined ∧ 0 ≤ s10 ∧ 0 ≤ p30 ∧ 0 ≤ s30 ∧ 0 ≤ p10 ∧
    (∀ c ∈ account.data, c ≠ '[') ∧ (∀ c ∈ rank.data, c ≠ '[')

/-- A file content whose single mail amount is not divisible by the ticket
cost: inconsistent by the amount validator's classification. -/
def c5BadContent : String :=
  "[\"ticket_cost\"] = 3\n[\"amount\"] = 4"

/-- The entry `generate_roster_data` produces from `gen0` (all counters 0,
first adjective/noun, numeric suffix 1). -/
def rosterDemoEntry : PyVal := .dict [
  (.str "account", .str "@ActiveArcher1"),
  (.str "joined", .int 0),
  (.str "sales10", .int 0),
  (.str "purchases30", .int 0),
  (.str "sales30", .int 0),
  (.str "rank", .str "Recruit"),
  (.str "purchases10", .int 0)]

/-- The character sequence of one serialized dict field line: a newline,
the indent spaces, four more spaces, the key literal, ` = `, the rendered
value, and the trailing comma followed by the rest of the text. -/
def lineCh (sp1 : List Char) (field : String) (v rest : List Char) : List Char :=
  '\n' :: (sp1 ++ (' ' :: ' ' :: ' ' :: ' ' ::
    (fieldLit field ++ (' ' :: '=' :: ' ' :: (v ++ ',' :: rest)))))

/-! ### Arithmetic and rendering lemmas -/

theorem natDigitChar_isDigit (d : Nat) : isDigitChar (natDigitChar d) = true := by
  unfold natDigitChar
  repeat' split
  all_goals decide

theorem natDigitChar_toNat (d : Nat) (h : d < 10) : (natDigitChar d).toNat = 48 + d := by
  interval_cases d <;> decide

theorem toDecimalAux_digits (fuel n : Nat) (c : Char)
    (h : c ∈ toDecimalAux fuel n) : isDigitChar c = true := by
  induction fuel generalizing n with
  | zero => simp [toDecimalAux] at h
  | succ fuel ih =>
    by_cases hn : n = 0
    · simp [toDecimalAux, hn] at h
    · simp only [toDecimalAux, if_neg hn, List.mem_append, List.mem_singleton] at h
      rcases h with h | h
      · exact ih _ h
      · subst h; exact natDigitChar_isDigit _

theorem natDecChars_digits (n : Nat) (c : Char)
    (h : c ∈ natDecChars n) : isDigitChar c = true := by
  by_cases hn : n = 0
  · simp [natDecChars, hn] at h; subst h; decide
  · simp only [natDecChars, if_neg hn] at h
    exact toDecimalAux_digits _ _ _ h

theorem natDecChars_ne_nil (n : Nat) : natDecChars n ≠ [] := by
  by_cases hn : n = 0
  · simp [natDecChars, hn]
  · have h1 : 1 ≤ n := Nat.one_le_iff_ne_zero.mpr hn
    obtain ⟨m, rfl⟩ : ∃ m, n = m + 1 := ⟨n - 1, by omega⟩
    simp [natDecChars, toDecimalAux, hn]

theorem parseFold_append (l1 l2 : List Char) (a : Nat) :
    parseFold (l1 ++ l2) a = parseFold l2 (parseFold l1 a) := by
  induction l1 generalizing a with
  | nil => rfl
  | cons c cs ih => simp [parseFold, ih]

theorem toDecimalAux_parse (fuel : Nat) : ∀ n a, n ≤ fuel →
    parseFold (toDecimalAux fuel n) a = a * 10 ^ (toDecimalAux fuel n).length + n := by
  induction fuel with
  | zero =>
    intro n a h
    interval_cases n
    simp [toDecimalAux, parseFold]
  | succ fuel ih =>
    intro n a h
    by_cases hn : n = 0
    · simp [toDecimalAux, hn, parseFold]
    · have hdiv : n / 10 ≤ fuel := by
        have : n / 10 < n := Nat.div_lt_self (Nat.pos_of_ne_zero hn) (by omega)
        omega
      have hmod : n % 10 < 10 := Nat.mod_lt _ (by omega)
      simp only [toDecimalAux, if_neg hn]
      rw [parseFold_append, ih _ _ hdiv]
      simp only [parseFold, natDigitChar_toNat _ hmod, List.length_append,
        List.length_singleton]
      have := Nat.div_add_mod n 10
      ring_nf
      omega

theorem parseFold_natDecChars (n : Nat) : parseFold (natDecChars n) 0 = n := by
  by_cases hn : n = 0
  · simp [natDecChars, hn, parseFold]
  · simp only [natDecChars, if_neg hn]
    rw [toDecimalAux_parse n n 0 (le_refl n)]
    simp

theorem natDecChars_inj {m n : Nat} (h : natDecChars m = natDecChars n) : m = n := by
  have := parseFold_natDecChars m
  rw [h, parseFold_natDecChars] at this
  omega

theorem pyNatStr_inj {m n : Nat} (h : pyNatStr m = pyNatStr n) : m = n := by
  apply natDecChars_inj
  have := congrArg String.data h
  simpa [pyNatStr] using this

/-! ### Scanner lemmas -/

theorem matchLit_append (p r : List Char) : matchLit p (p ++ r) = some r := by
  induction p with
  | nil => rfl
  | cons c cs ih => simp [matchLit, ih]

theorem matchLit_length {p cs r : List Char} (h : matchLit p cs = some r) :
    r.length + p.length = cs.length := by
  induction p generalizing cs with
  | nil =>
    simp only [matchLit, Option.some.injEq] at h
    subst h; simp
  | cons x xs ih =>
    cases cs with
    | nil => exact absurd h (by simp [matchLit])
    | cons c cs =>
      simp only [matchLit] at h
      by_cases hc : c = x
      · rw [if_pos hc] at h
        have := ih h
        simp only [List.length_cons]
        omega
      · rw [if_neg hc] at h; cases h

theorem skipSpaces_length (cs : List Char) : (skipSpaces cs).length ≤ cs.length := by
  induction cs with
  | nil => simp [skipSpaces]
  | cons c cs ih =>
    simp only [skipSpaces]
    split
    · simp only [List.length_cons]; omega
    · simp

theorem skipSpaces_cons_of_not_space {c : Char} (cs : List Char)
    (h : isPySpace c = false) : skipSpaces (c :: cs) = c :: cs := by
  simp [skipSpaces, h]

theorem takeDigits_snd_length (cs : List Char) :
    (takeDigits cs).2.length ≤ cs.length := by
  induction cs with
  | nil => simp [takeDigits]
  | cons c cs ih =>
    simp only [takeDigits]
    split
    · simpa using Nat.le_succ_of_le ih
    · simp

theorem takeDigits_exact {ds : List Char} (c : Char) (r : List Char)
    (hds : ∀ x ∈ ds, isDigitChar x = true) (hc : isDigitChar c = false) :
    takeDigits (ds ++ c :: r) = (ds, c :: r) := by
  induction ds with
  | nil => simp [takeDigits, hc]
  | cons d ds ih =>
    have hd : isDigitChar d = true := hds d (by simp)
    have ih2 := ih (fun x hx => hds x (by simp [hx]))
    simp only [List.cons_append, takeDigits, hd, if_true, List.append_eq]
    rw [ih2]

theorem isDigit_toNat {c : Char} (h : isDigitChar c = true) :
    48 ≤ c.toNat ∧ c.toNat ≤ 57 := by
  simpa [isDigitChar, Bool.and_eq_true, decide_eq_true_eq] using h

theorem isDigit_not_space {c : Char} (h : isDigitChar c = true) :
    isPySpace c = false := by
  obtain ⟨h1, h2⟩ := isDigit_toNat h
  by_contra hs
  rw [Bool.not_eq_false] at hs
  simp only [isPySpace, Bool.or_eq_true, decide_eq_true_eq] at hs
  rcases hs with ((((h3 | h3) | h3) | h3) | h3) | h3 <;> (subst h3; revert h1 h2; decide)

theorem isDigit_not_comma {c : Char} (h : isDigitChar c = true) : c ≠ ',' := by
  intro hc; subst hc; exact absurd h (by decide)

theorem isDigit_not_lbracket {c : Char} (h : isDigitChar c = true) : c ≠ '[' := by
  intro hc; subst hc; exact absurd h (by decide)

theorem skipSpaces_digits {ds tail : List Char} (hne : ds ≠ [])
    (hds : ∀ x ∈ ds, isDigitChar x = true) :
    skipSpaces (ds ++ tail) = ds ++ tail := by
  cases ds with
  | nil => exact absurd rfl hne
  | cons d ds =>
    have hd : isDigitChar d = true := hds d (by simp)
    exact skipSpaces_cons_of_not_space _ (isDigit_not_space hd)

theorem matchFieldAt_shrink {wc : Bool} {key cs : List Char} {n : Nat}
    {rest : List Char} (h : matchFieldAt wc key cs = some (n, rest)) :
    rest.length < cs.length := by
  unfold matchFieldAt at h
  split at h
  · cases h
  · rename_i r1 hm
    have hr1 : r1.length ≤ cs.length := by have := matchLit_length hm; omega
    split at h
    · cases h
    · rename_i e r2 hs
      have hr2 : r2.length < r1.length := by
        have h2 := skipSpaces_length r1
        rw [hs] at h2
        simp only [List.length_cons] at h2
        omega
      have hr4 : (takeDigits (skipSpaces r2)).2.length ≤ r2.length :=
        le_trans (takeDigits_snd_length _) (skipSpaces_length _)
      split at h
      · split at h
        · cases h
        · split at h
          · split at h
            · cases h
            · rename_i c5 r5 h4
              split at h
              · injection h with h5
                injection h5 with h6 h7
                subst h7
                rw [h4] at hr4
                simp only [List.length_cons] at hr4
                omega
              · cases h
          · injection h with h5
            injection h5 with h6 h7
            subst h7
            omega
      · cases h

/-- A field-pattern component matched exactly against the text the serializer
emits for it: the literal, one space, `=`, one space, a digit run, then a
comma.  With `withComma` the comma is consumed; without, it is left in the
rest. -/
theorem matchFieldAt_exact_comma (key ds rest : List Char) (hne : ds ≠ [])
    (hds : ∀ x ∈ ds, isDigitChar x = true) :
    matchFieldAt true key (key ++ ' ' :: '=' :: ' ' :: (ds ++ ',' :: rest)) =
      some (parseFold ds 0, rest) := by
  obtain ⟨d, ds, rfl⟩ : ∃ d tail, ds = d :: tail := by
    cases ds with
    | nil => exact absurd rfl hne
    | cons d tail => exact ⟨d, tail, rfl⟩
  have hd : isPySpace d = false := isDigit_not_space (hds d (by simp))
  have h3 : takeDigits ((d :: ds) ++ ',' :: rest) = (d :: ds, ',' :: rest) :=
    takeDigits_exact ',' rest hds (by decide)
  rw [List.cons_append] at h3
  have hsp : isPySpace ' ' = true := rfl
  have heq : isPySpace '=' = false := rfl
  simp [matchFieldAt, matchLit_append, skipSpaces, hsp, heq, hd, h3]

theorem matchFieldAt_exact_nocomma (key ds : List Char) (c : Char)
    (rest : List Char) (hne : ds ≠ []) (hds : ∀ x ∈ ds, isDigitChar x = true)
    (hc : isDigitChar c = false) :
    matchFieldAt false key (key ++ ' ' :: '=' :: ' ' :: (ds ++ c :: rest)) =
      some (parseFold ds 0, c :: rest) := by
  obtain ⟨d, ds, rfl⟩ : ∃ d tail, ds = d :: tail := by
    cases ds with
    | nil => exact absurd rfl hne
    | cons d tail => exact ⟨d, tail, rfl⟩
  have hd : isPySpace d = false := isDigit_not_space (hds d (by simp))
  have h3 : takeDigits ((d :: ds) ++ c :: rest) = (d :: ds, c :: rest) :=
    takeDigits_exact c rest hds hc
  rw [List.cons_append] at h3
  have hsp : isPySpace ' ' = true := rfl
  have heq : isPySpace '=' = false := rfl
  simp [matchFieldAt, matchLit_append, skipSpaces, hsp, heq, hd, h3]

/-- A field pattern cannot match at a position whose first character differs
from the first character of the literal. -/
theorem matchFieldAt_head_ne {wc : Bool} {k0 : Char} {ktail : List Char}
    {c : Char} (cs : List Char) (hc : c ≠ k0) :
    matchFieldAt wc (k0 :: ktail) (c :: cs) = none := by
  unfold matchFieldAt
  simp [matchLit, hc]

theorem matchField_lit_head_ne (wc : Bool) (field : String) {c : Char}
    (cs : List Char) (hc : c ≠ '[') :
    matchFieldAt wc (fieldLit field) (c :: cs) = none := by
  unfold fieldLit
  exact matchFieldAt_head_ne cs hc

theorem scanFirstAux_ge {α : Type} (f : List Char → Option (α × List Char)) :
    ∀ fuel cs, cs.length ≤ fuel → scanFirstAux f fuel cs = scanFirst f cs := by
  intro fuel
  induction fuel with
  | zero =>
    intro cs h
    have hnil : cs = [] := by cases cs <;> simp_all
    subst hnil
    rfl
  | succ fuel ih =>
    intro cs h
    cases cs with
    | nil => rfl
    | cons c cs =>
      have h2 : cs.length ≤ fuel := by simp only [List.length_cons] at h; omega
      cases hf : f (c :: cs) with
      | some r => simp [scanFirst, scanFirstAux, hf]
      | none =>
        simp only [scanFirst, List.length_cons, scanFirstAux, hf]
        rw [ih cs h2]
        rfl

theorem scanFirst_nil {α : Type} (f : List Char → Option (α × List Char)) :
    scanFirst f [] = none := rfl

theorem scanFirst_cons_none {α : Type} (f : List Char → Option (α × List Char))
    {c : Char} {cs : List Char} (hf : f (c :: cs) = none) :
    scanFirst f (c :: cs) = scanFirst f cs := by
  simp only [scanFirst, List.length_cons, scanFirstAux, hf]

theorem scanFirst_cons_some {α : Type} (f : List Char → Option (α × List Char))
    {c : Char} {cs : List Char} {r : α × List Char} (hf : f (c :: cs) = some r) :
    scanFirst f (c :: cs) = some r := by
  simp [scanFirst, scanFirstAux, hf]

theorem scanFirst_skip {α : Type} (f : List Char → Option (α × List Char))
    (Hhead : ∀ c cs, c ≠ '[' → f (c :: cs) = none) :
    ∀ l1 l2, (∀ c ∈ l1, c ≠ '[') → scanFirst f (l1 ++ l2) = scanFirst f l2 := by
  intro l1
  induction l1 with
  | nil => intro l2 _; rfl
  | cons c l1 ih =>
    intro l2 hl
    rw [List.cons_append,
      scanFirst_cons_none f (Hhead c _ (hl c (by simp)))]
    exact ih l2 (fun x hx => hl x (by simp [hx]))

theorem scanAllAux_ge {α : Type} (f : List Char → Option (α × List Char))
    (Hf : ∀ cs a rest, f cs = some (a, rest) → rest.length < cs.length) :
    ∀ fuel cs, cs.length ≤ fuel → scanAllAux f fuel cs = scanAllFrom f cs := by
  intro fuel
  induction fuel using Nat.strong_induction_on with
  | _ fuel ih =>
    intro cs h
    match fuel with
    | 0 =>
      have hnil : cs = [] := by cases cs <;> simp_all
      subst hnil
      rfl
    | fuel + 1 =>
      cases cs with
      | nil => rfl
      | cons c cs =>
        have h2 : cs.length ≤ fuel := by simp only [List.length_cons] at h; omega
        cases hf : f (c :: cs) with
        | some r =>
          obtain ⟨a, rest⟩ := r
          have hrest : rest.length ≤ cs.length := by
            have := Hf _ _ _ hf
            simp only [List.length_cons] at this
            omega
          simp only [scanAllFrom, List.length_cons, scanAllAux, hf]
          rw [ih fuel (by omega) rest (le_trans hrest h2),
            ih cs.length (by omega) rest hrest]
        | none =>
          simp only [scanAllFrom, List.length_cons, scanAllAux, hf]
          rw [ih fuel (by omega) cs h2]
          rfl

theorem scanAll_nil {α : Type} (f : List Char → Option (α × List Char)) :
    scanAllFrom f [] = [] := rfl

theorem scanAll_cons_none {α : Type} (f : List Char → Option (α × List Char))
    {c : Char} {cs : List Char} (hf : f (c :: cs) = none) :
    scanAllFrom f (c :: cs) = scanAllFrom f cs := by
  simp only [scanAllFrom, List.length_cons, scanAllAux, hf]

theorem scanAll_cons_some {α : Type} (f : List Char → Option (α × List Char))
    (Hf : ∀ cs a rest, f cs = some (a, rest) → rest.length < cs.length)
    {c : Char} {cs : List Char} {a : α} {rest : List Char}
    (hf : f (c :: cs) = some (a, rest)) :
    scanAllFrom f (c :: cs) = a :: scanAllFrom f rest := by
  have hrest : rest.length ≤ cs.length := by
    have := Hf _ _ _ hf
    simp only [List.length_cons] at this
    omega
  simp only [scanAllFrom, List.length_cons, scanAllAux, hf]
  rw [scanAllAux_ge f Hf cs.length rest hrest]
  rfl

theorem scanAll_skip {α : Type} (f : List Char → Option (α × List Char))
    (Hhead : ∀ c cs, c ≠ '[' → f (c :: cs) = none) :
    ∀ l1 l2, (∀ c ∈ l1, c ≠ '[') → scanAllFrom f (l1 ++ l2) = scanAllFrom f l2 := by
  intro l1
  induction l1 with
  | nil => intro l2 _; rfl
  | cons c l1 ih =>
    intro l2 hl
    rw [List.cons_append,
      scanAll_cons_none f (Hhead c _ (hl c (by simp)))]
    exact ih l2 (fun x hx => hl x (by simp [hx]))

/-! ### Lemmas about the validators -/

theorem scanFirstAux_shrink {α : Type} (f : List Char → Option (α × List Char))
    (Hf : ∀ cs a rest, f cs = some (a, rest) → rest.length < cs.length) :
    ∀ fuel cs a rest, scanFirstAux f fuel cs = some (a, rest) →
      rest.length < cs.length := by
  intro fuel
  induction fuel with
  | zero => intro cs a rest h; cases h
  | succ fuel ih =>
    intro cs a rest h
    cases cs with
    | nil => cases h
    | cons c cs =>
      simp only [scanFirstAux] at h
      cases hf : f (c :: cs) with
      | some r =>
        rw [hf] at h
        injection h with h
        subst h
        exact Hf _ _ _ hf
      | none =>
        rw [hf] at h
        have := ih cs a rest h
        simp only [List.length_cons]
        omega

theorem scanFirst_shrink {α : Type} (f : List Char → Option (α × List Char))
    (Hf : ∀ cs a rest, f cs = some (a, rest) → rest.length < cs.length)
    {cs : List Char} {a : α} {rest : List Char}
    (h : scanFirst f cs = some (a, rest)) : rest.length < cs.length :=
  scanFirstAux_shrink f Hf cs.length cs a rest h

theorem matchFieldAt_shrink3 (wc : Bool) (key : List Char) :
    ∀ cs (a : Nat) rest, matchFieldAt wc key cs = some (a, rest) →
      rest.length < cs.length :=
  fun _ _ _ h => matchFieldAt_shrink h

theorem matchRosterAt_shrink :
    ∀ cs (q : RosterQuad) rest, matchRosterAt cs = some (q, rest) →
      rest.length < cs.length := by
  intro cs q rest h
  unfold matchRosterAt at h
  split at h
  · cases h
  · rename_i s10 r1 h1
    split at h
    · cases h
    · rename_i p30 r2 h2
      split at h
      · cases h
      · rename_i s30 r3 h3
        split at h
        · cases h
        · rename_i p10 r4 h4
          injection h with h5
          injection h5 with h6 h7
          subst h7
          have k1 : r1.length < cs.length := matchFieldAt_shrink h1
          have k2 : r2.length < r1.length :=
            scanFirst_shrink _ (matchFieldAt_shrink3 true _) h2
          have k3 : r3.length < r2.length :=
            scanFirst_shrink _ (matchFieldAt_shrink3 true _) h3
          have k4 : r4.length < r3.length :=
            scanFirst_shrink _ (matchFieldAt_shrink3 false _) h4
          omega

theorem matchRosterAt_head_ne {c : Char} (cs : List Char) (hc : c ≠ '[') :
    matchRosterAt (c :: cs) = none := by
  unfold matchRosterAt
  rw [matchField_lit_head_ne true "sales10" cs hc]

theorem roster_issues_aux_nil_iff (qs : List RosterQuad) : ∀ i,
    roster_issues_aux i qs = [] ↔
      ∀ q ∈ qs, q.sales10 ≤ q.sales30 ∧ q.purchases10 ≤ q.purchases30 := by
  induction qs with
  | nil => intro i; simp [roster_issues_aux]
  | cons q qs ih =>
    intro i
    simp only [roster_issues_aux, List.append_eq_nil, List.mem_cons]
    constructor
    · rintro ⟨h1, h2⟩
      have hq : q.sales10 ≤ q.sales30 ∧ q.purchases10 ≤ q.purchases30 := by
        unfold quad_issue_msgs at h1
        rw [List.append_eq_nil] at h1
        obtain ⟨ha, hb⟩ := h1
        constructor
        · by_contra hlt
          rw [if_pos (by omega)] at ha
          cases ha
        · by_contra hlt
          rw [if_pos (by omega)] at hb
          cases hb
      intro x hx
      rcases hx with rfl | hx
      · exact hq
      · exact ((ih (i + 1)).mp h2) x hx
    · intro hall
      have hq := hall q (Or.inl rfl)
      constructor
      · unfold quad_issue_msgs
        rw [if_neg (by omega), if_neg (by omega)]
        rfl
      · exact (ih (i + 1)).mpr (fun x hx => hall x (Or.inr hx))

theorem roster_issues_nil_iff (qs : List RosterQuad) :
    roster_issues qs = [] ↔
      ∀ q ∈ qs, q.sales10 ≤ q.sales30 ∧ q.purchases10 ≤ q.purchases30 :=
  roster_issues_aux_nil_iff qs 0



theorem adjectives_no_lb : ∀ w ∈ ADJECTIVES, ∀ c ∈ (pyTitle w).data, c ≠ '[' := by
  decide

theorem nouns_no_lb : ∀ w ∈ NOUNS, ∀ c ∈ (pyTitle w).data, c ≠ '[' := by decide

theorem ranks_no_lb : ∀ w ∈ RANKS, ∀ c ∈ w.data, c ≠ '[' := by decide

theorem escChars_no_lb : ∀ (l : List Char), (∀ c ∈ l, c ≠ '[') →
    ∀ c ∈ escChars l, c ≠ '[' := by
  intro l
  induction l with
  | nil => intro _ d hd; simp [escChars] at hd
  | cons x xs ih =>
    intro hl d hd
    simp only [escChars] at hd
    split at hd
    · simp only [List.mem_cons] at hd
      rcases hd with rfl | rfl | hd
      · decide
      · decide
      · exact ih (fun y hy => hl y (by simp [hy])) d hd
    · simp only [List.mem_cons] at hd
      rcases hd with rfl | hd
      · exact hl d (by simp)
      · exact ih (fun y hy => hl y (by simp [hy])) d hd

theorem natDecChars_no_lb (n : Nat) : ∀ c ∈ natDecChars n, c ≠ '[' :=
  fun c hc => isDigit_not_lbracket (natDecChars_digits n c hc)

theorem indentSpaces_chars : ∀ k, ∀ c ∈ (indentSpaces k).data, c = ' ' := by
  intro k
  induction k with
  | zero => simp [indentSpaces]
  | succ k ih =>
    intro c hc
    simp only [indentSpaces, String.data_append, List.mem_append] at hc
    rcases hc with hc | hc
    · exact ih c hc
    · simp only [List.mem_cons, List.not_mem_nil, or_false] at hc
      rcases hc with rfl | rfl | rfl | rfl
      all_goals rfl

theorem indentSpaces_no_lb (k : Nat) : ∀ c ∈ (indentSpaces k).data, c ≠ '[' := by
  intro c hc
  rw [indentSpaces_chars k c hc]
  decide

theorem pyIntRepr_nonneg_data {v : Int} (hv : 0 ≤ v) :
    (pyIntRepr v).data = natDecChars v.toNat := by
  simp [pyIntRepr, not_lt.mpr hv, pyNatStr]

theorem pyChoice_fst (xs : List String) (s : Gen) :
    (pyChoice xs s).1 = xs.getD (s.entropy s.pos % xs.length) "" := rfl

theorem pyChoice_mem (xs : List String) (hxs : xs ≠ []) (s : Gen) :
    (pyChoice xs s).1 ∈ xs := by
  rw [pyChoice_fst]
  have hlen : 0 < xs.length := List.length_pos.mpr hxs
  have hlt : s.entropy s.pos % xs.length < xs.length := Nat.mod_lt _ hlen
  rw [List.getD_eq_getElem xs "" hlt]
  exact List.getElem_mem hlt

theorem attempt_name_no_lb (s : Gen) : ∀ c ∈ (attempt_name s).1.data, c ≠ '[' := by
  have hA : (ADJECTIVES : List String) ≠ [] := by simp [ADJECTIVES]
  have hN : (NOUNS : List String) ≠ [] := by simp [NOUNS]
  have h9 : ¬((999 : Int) < 1) := by norm_num
  unfold attempt_name
  cases hc1 : pyChoice ADJECTIVES s with
  | mk adj s1 =>
    have hadj : adj ∈ ADJECTIVES := by
      have hm := pyChoice_mem ADJECTIVES hA s
      rw [hc1] at hm; exact hm
    cases hc2 : pyChoice NOUNS s1 with
    | mk noun s2 =>
      have hnoun : noun ∈ NOUNS := by
        have hm := pyChoice_mem NOUNS hN s1
        rw [hc2] at hm; exact hm
      cases hv : randomLt 3 s2 with
      | mk vary s3 =>
        cases vary
        · simp only [hc1, hc2, hv, Bool.false_eq_true, if_false]
          intro c hc
          simp only [String.data_append, List.mem_append] at hc
          rcases hc with (hc | hc) | hc
          · simp only [List.mem_cons, List.not_mem_nil, or_false] at hc
            subst hc; decide
          · exact adjectives_no_lb adj hadj c hc
          · exact nouns_no_lb noun hnoun c hc
        · simp only [hc1, hc2, hv, if_true, randint, draw, h9]
          simp only [if_false]
          intro c hc
          simp only [String.data_append, List.mem_append] at hc
          rcases hc with ((hc | hc) | hc) | hc
          · simp only [List.mem_cons, List.not_mem_nil, or_false] at hc
            subst hc; decide
          · exact adjectives_no_lb adj hadj c hc
          · exact nouns_no_lb noun hnoun c hc
          · rw [pyIntRepr_nonneg_data (by omega)] at hc
            exact natDecChars_no_lb _ c hc

theorem username_attempts_no_lb : ∀ fuel s u s1,
    username_attempts fuel s = (some u, s1) → ∀ c ∈ u.data, c ≠ '[' := by
  intro fuel
  induction fuel with
  | zero => intro s u s1 h; simp [username_attempts] at h
  | succ fuel ih =>
    intro s u s1 h
    rw [username_attempts] at h
    cases ha : attempt_name s with
    | mk username s4 =>
      rw [ha] at h
      dsimp only at h
      by_cases hin : username ∈ s4.used_usernames
      · rw [if_pos hin] at h
        exact ih s4 u s1 h
      · rw [if_neg hin] at h
        injection h with h1 h2
        injection h1 with h1
        subst h1
        have hlb := attempt_name_no_lb s
        rw [ha] at hlb
        exact hlb

theorem generate_username_no_lb (s : Gen) :
    ∀ c ∈ (generate_username s).1.data, c ≠ '[' := by
  unfold generate_username
  cases hu : username_attempts 100 s with
  | mk ou s1 =>
    cases ou with
    | some u =>
      simp only [hu]
      exact username_attempts_no_lb 100 s u s1 hu
    | none =>
      simp only [hu]
      cases hc : pyChoice ADJECTIVES s1 with
      | mk adj s2 =>
        have hadj : adj ∈ ADJECTIVES := by
          have hm := pyChoice_mem ADJECTIVES (by simp [ADJECTIVES]) s1
          rw [hc] at hm; exact hm
        simp only [hc]
        intro c hcm
        simp only [String.data_append, List.mem_append] at hcm
        rcases hcm with (hcm | hcm) | hcm
        · simp only [List.mem_cons, List.not_mem_nil, or_false] at hcm
          subst hcm; decide
        · exact adjectives_no_lb adj hadj c hcm
        · exact natDecChars_no_lb s1.now c (List.drop_subset _ _ hcm)

theorem randint_bounds {lo hi : Int} {s : Gen} {v : Int} {s1 : Gen}
    (hle : lo ≤ hi) (h : randint lo hi s = some (v, s1)) : lo ≤ v ∧ v ≤ hi := by
  unfold randint draw at h
  dsimp only at h
  rw [if_neg (by omega)] at h
  injection h with h
  injection h with h1 h2
  have h3 : 0 ≤ (s.entropy s.pos : Int) % (hi - lo + 1) :=
    Int.emod_nonneg _ (by omega)
  have h4 : (s.entropy s.pos : Int) % (hi - lo + 1) < hi - lo + 1 :=
    Int.emod_lt_of_pos _ (by omega)
  omega

theorem counter10_of_bounds {v30 : Int} (hv : 0 ≤ v30) {sa : Gen} {v : Int}
    {sb : Gen} (h : counter10_of v30 sa = some (v, sb)) :
    0 ≤ v ∧ v ≤ v30 ∧ (v30 = 0 → v = 0) := by
  unfold counter10_of at h
  by_cases h0 : v30 = 0
  · rw [if_pos h0] at h
    injection h with h
    injection h with h1 h2
    omega
  · rw [if_neg h0] at h
    have hb := randint_bounds hv h
    exact ⟨hb.1, hb.2, fun hc => absurd hc h0⟩

theorem generate_roster_entry_good {s : Gen} {e : PyVal} {s1 : Gen}
    (h : generate_roster_entry s = some (e, s1)) : goodEntry e := by
  unfold generate_roster_entry at h
  cases h30 : randint 0 5000000 s with
  | none => rw [h30] at h; simp at h
  | some p30 =>
    obtain ⟨v30, sa⟩ := p30
    have hb30 := randint_bounds (by norm_num) h30
    rw [h30] at h
    simp only [Option.bind_eq_bind, Option.some_bind] at h
    cases hq30 : randint 0 100000 sa with
    | none => rw [hq30] at h; simp at h
    | some q30 =>
      obtain ⟨w30, sb⟩ := q30
      have hbw30 := randint_bounds (by norm_num) hq30
      rw [hq30] at h
      simp only [Option.some_bind] at h
      cases h10 : counter10_of v30 sb with
      | none => rw [h10] at h; simp at h
      | some p10 =>
        obtain ⟨v10, sc⟩ := p10
        have hb10 := counter10_of_bounds hb30.1 h10
        rw [h10] at h
        simp only [Option.some_bind] at h
        cases hq10 : counter10_of w30 sc with
        | none => rw [hq10] at h; simp at h
        | some q10 =>
          obtain ⟨w10, sd⟩ := q10
          have hbw10 := counter10_of_bounds hbw30.1 hq10
          rw [hq10] at h
          simp only [Option.some_bind] at h
          cases hj : randint 0 ((generate_username sd).2.now : Int)
              (generate_username sd).2 with
          | none => rw [hj] at h; simp at h
          | some pj =>
            obtain ⟨vj, sf⟩ := pj
            have hbj : 0 ≤ vj ∧ vj ≤ ((generate_username sd).2.now : Int) :=
              randint_bounds (by positivity) hj
            rw [hj] at h
            simp only [Option.some_bind] at h
            injection h with h
            injection h with h1 h2
            subst h1
            refine ⟨(generate_username sd).1, (pyChoice RANKS sf).1,
              vj, v10, w30, v30, w10, rfl, hbj.1, hb10.1, hbw30.1, hb30.1,
              hbw10.1, generate_username_no_lb sd, ?_⟩
            have hrk : (pyChoice RANKS sf).1 ∈ RANKS :=
              pyChoice_mem RANKS (by simp [RANKS]) sf
            exact ranks_no_lb _ hrk

theorem matchLit_mismatch (a : List Char) {c1 c2 : Char} (t1 t2 : List Char)
    (h : c1 ≠ c2) : matchLit (a ++ c1 :: t1) (a ++ c2 :: t2) = none := by
  induction a with
  | nil =>
    simp only [List.nil_append, matchLit]
    rw [if_neg (Ne.symm h)]
  | cons x xs ih =>
    simp only [List.cons_append, matchLit, if_pos rfl]
    exact ih

theorem matchFieldAt_none_of_lit {wc : Bool} {key cs : List Char}
    (h : matchLit key cs = none) : matchFieldAt wc key cs = none := by
  unfold matchFieldAt
  rw [h]

theorem matchRosterAt_none_of_first {cs : List Char}
    (h : matchFieldAt true (fieldLit "sales10") cs = none) :
    matchRosterAt cs = none := by
  unfold matchRosterAt
  rw [h]

theorem roster_no_match_account (X : List Char) :
    matchRosterAt (fieldLit "account" ++ X) = none := by
  apply matchRosterAt_none_of_first
  apply matchFieldAt_none_of_lit
  exact matchLit_mismatch ['[', '"'] _ _ (by decide)

theorem roster_no_match_joined (X : List Char) :
    matchRosterAt (fieldLit "joined" ++ X) = none := by
  apply matchRosterAt_none_of_first
  apply matchFieldAt_none_of_lit
  exact matchLit_mismatch ['[', '"'] _ _ (by decide)

theorem roster_no_match_digit {d : Char} (hd : d ≠ '"') (X : List Char) :
    matchRosterAt ('[' :: d :: X) = none := by
  apply matchRosterAt_none_of_first
  apply matchFieldAt_none_of_lit
  exact matchLit_mismatch ['['] _ _ (Ne.symm hd)

theorem p10_no_match_rank (X : List Char) :
    matchFieldAt false (fieldLit "purchases10") (fieldLit "rank" ++ X) = none := by
  apply matchFieldAt_none_of_lit
  exact matchLit_mismatch ['[', '"'] _ _ (by decide)


theorem lineCh_decomp (sp1 : List Char) (f : String) (v rest : List Char) :
    lineCh sp1 f v rest = ('\n' :: (sp1 ++ [' ', ' ', ' ', ' '])) ++
      (fieldLit f ++ (' ' :: '=' :: ' ' :: (v ++ ',' :: rest))) := by
  simp [lineCh, List.append_assoc]

theorem no_lb_nil : ∀ c ∈ ([] : List Char), c ≠ '[' := by simp

theorem no_lb_cons {c0 : Char} {l : List Char} (h0 : c0 ≠ '[')
    (h : ∀ c ∈ l, c ≠ '[') : ∀ c ∈ c0 :: l, c ≠ '[' := by
  intro c hc
  rcases List.mem_cons.mp hc with rfl | h2
  · exact h0
  · exact h c h2

theorem no_lb_append {l1 l2 : List Char} (h1 : ∀ c ∈ l1, c ≠ '[')
    (h2 : ∀ c ∈ l2, c ≠ '[') : ∀ c ∈ l1 ++ l2, c ≠ '[' := by
  intro c hc
  rcases List.mem_append.mp hc with h | h
  · exact h1 c h
  · exact h2 c h

theorem line_prefix_no_lb {sp1 : List Char} (hsp : ∀ c ∈ sp1, c ≠ '[') :
    ∀ c ∈ '\n' :: (sp1 ++ [' ', ' ', ' ', ' ']), c ≠ '[' :=
  no_lb_cons (by decide) (no_lb_append hsp (by decide))

theorem scan_skip_line {α : Type} (f : List Char → Option (α × List Char))
    (Hhead : ∀ c cs, c ≠ '[' → f (c :: cs) = none)
    (sp1 : List Char) (hsp : ∀ c ∈ sp1, c ≠ '[')
    (field : String) (hfield : ∀ c ∈ field.data, c ≠ '[')
    (v rest : List Char) (hv : ∀ c ∈ v, c ≠ '[')
    (hkey : ∀ X, f (fieldLit field ++ X) = none) :
    scanAllFrom f (lineCh sp1 field v rest) = scanAllFrom f rest ∧
    scanFirst f (lineCh sp1 field v rest) = scanFirst f rest := by
  have hshape : ∀ X : List Char, fieldLit field ++ X =
      '[' :: ('"' :: (field.data ++ ('"' :: ']' :: X))) := by
    intro X
    simp [fieldLit]
  have hshape2 : '"' :: (field.data ++ ('"' :: ']' ::
      (' ' :: '=' :: ' ' :: (v ++ ',' :: rest)))) =
      ('"' :: (field.data ++ ('"' :: ']' ::
        (' ' :: '=' :: ' ' :: (v ++ [',']))))) ++ rest := by
    simp [List.append_assoc]
  have hmid : ∀ c ∈ '"' :: (field.data ++ ('"' :: ']' ::
      (' ' :: '=' :: ' ' :: (v ++ [','])))), c ≠ '[' :=
    no_lb_cons (by decide) (no_lb_append hfield (no_lb_cons (by decide)
      (no_lb_cons (by decide) (no_lb_cons (by decide) (no_lb_cons (by decide)
        (no_lb_cons (by decide) (no_lb_append hv (by decide))))))))
  have hk2 := hkey (' ' :: '=' :: ' ' :: (v ++ ',' :: rest))
  rw [hshape] at hk2
  constructor
  · rw [lineCh_decomp,
      scanAll_skip f Hhead _ _ (line_prefix_no_lb hsp),
      hshape, scanAll_cons_none f hk2, hshape2,
      scanAll_skip f Hhead _ _ hmid]
  · rw [lineCh_decomp,
      scanFirst_skip f Hhead _ _ (line_prefix_no_lb hsp),
      hshape, scanFirst_cons_none f hk2, hshape2,
      scanFirst_skip f Hhead _ _ hmid]

theorem scanAll_head_matched {α : Type} (f : List Char → Option (α × List Char))
    (Hf : ∀ cs a rest, f cs = some (a, rest) → rest.length < cs.length)
    {cs : List Char} {a : α} {rest : List Char} (hne : cs ≠ [])
    (hf : f cs = some (a, rest)) :
    scanAllFrom f cs = a :: scanAllFrom f rest := by
  cases cs with
  | nil => exact absurd rfl hne
  | cons c cs2 => exact scanAll_cons_some f Hf hf

theorem scanFirst_head_matched {α : Type} (f : List Char → Option (α × List Char))
    {cs : List Char} {r : α × List Char} (hne : cs ≠ []) (hf : f cs = some r) :
    scanFirst f cs = some r := by
  cases cs with
  | nil => exact absurd rfl hne
  | cons c cs2 => exact scanFirst_cons_some f hf

theorem scanFirst_match_line_comma (field : String) (sp1 : List Char)
    (hsp : ∀ c ∈ sp1, c ≠ '[') (v rest : List Char) (hvne : v ≠ [])
    (hvd : ∀ c ∈ v, isDigitChar c = true) :
    scanFirst (matchFieldAt true (fieldLit field)) (lineCh sp1 field v rest) =
      some (parseFold v 0, rest) := by
  rw [lineCh_decomp,
    scanFirst_skip _ (fun c cs hc => matchField_lit_head_ne true field cs hc)
      _ _ (line_prefix_no_lb hsp)]
  exact scanFirst_head_matched _ (by simp [fieldLit])
    (matchFieldAt_exact_comma _ _ _ hvne hvd)

theorem scanFirst_match_line_nocomma (field : String) (sp1 : List Char)
    (hsp : ∀ c ∈ sp1, c ≠ '[') (v rest : List Char) (hvne : v ≠ [])
    (hvd : ∀ c ∈ v, isDigitChar c = true) :
    scanFirst (matchFieldAt false (fieldLit field)) (lineCh sp1 field v rest) =
      some (parseFold v 0, ',' :: rest) := by
  rw [lineCh_decomp,
    scanFirst_skip _ (fun c cs hc => matchField_lit_head_ne false field cs hc)
      _ _ (line_prefix_no_lb hsp)]
  exact scanFirst_head_matched _ (by simp [fieldLit])
    (matchFieldAt_exact_nocomma _ _ ',' rest hvne hvd (by decide))


theorem matchRosterAt_entry (sp1 : List Char) (hsp : ∀ c ∈ sp1, c ≠ '[')
    (rv : List Char) (hrv : ∀ c ∈ rv, c ≠ '[')
    (ds10 dp30 ds30 dp10 : List Char)
    (h10ne : ds10 ≠ []) (h10d : ∀ c ∈ ds10, isDigitChar c = true)
    (hp30ne : dp30 ≠ []) (hp30d : ∀ c ∈ dp30, isDigitChar c = true)
    (hs30ne : ds30 ≠ []) (hs30d : ∀ c ∈ ds30, isDigitChar c = true)
    (hp10ne : dp10 ≠ []) (hp10d : ∀ c ∈ dp10, isDigitChar c = true)
    (after : List Char) :
    matchRosterAt (fieldLit "sales10" ++ ' ' :: '=' :: ' ' :: (ds10 ++ ',' ::
      lineCh sp1 "purchases30" dp30 (
        lineCh sp1 "sales30" ds30 (
          lineCh sp1 "rank" rv (
            lineCh sp1 "purchases10" dp10 after))))) =
      some (⟨parseFold ds10 0, parseFold dp30 0, parseFold ds30 0,
        parseFold dp10 0⟩, ',' :: after) := by
  unfold matchRosterAt
  rw [matchFieldAt_exact_comma _ _ _ h10ne h10d]
  dsimp only
  rw [scanFirst_match_line_comma "purchases30" sp1 hsp dp30 _ hp30ne hp30d]
  dsimp only
  rw [scanFirst_match_line_comma "sales30" sp1 hsp ds30 _ hs30ne hs30d]
  dsimp only
  rw [(scan_skip_line _
      (fun c cs hc => matchField_lit_head_ne false "purchases10" cs hc)
      sp1 hsp "rank" (by decide) _ _ hrv p10_no_match_rank).2,
    scanFirst_match_line_nocomma "purchases10" sp1 hsp dp10 after hp10ne hp10d]


theorem entry_data (ind1 : Nat) (account rank : String)
    (joined s10 p30 s30 p10 : Int)
    (hj : 0 ≤ joined) (h1 : 0 ≤ s10) (h2 : 0 ≤ p30) (h3 : 0 ≤ s30)
    (h4 : 0 ≤ p10) :
    (format_lua_value (.dict [
      (.str "account", .str account),
      (.str "joined", .int joined),
      (.str "sales10", .int s10),
      (.str "purchases30", .int p30),
      (.str "sales30", .int s30),
      (.str "rank", .str rank),
      (.str "purchases10", .int p10)]) ind1).data =
    '\x7b' :: (lineCh (indentSpaces ind1).data "account" ('"' :: escChars account.data ++ ['"'])
      (lineCh (indentSpaces ind1).data "joined" (natDecChars joined.toNat)
      (lineCh (indentSpaces ind1).data "sales10" (natDecChars s10.toNat)
      (lineCh (indentSpaces ind1).data "purchases30" (natDecChars p30.toNat)
      (lineCh (indentSpaces ind1).data "sales30" (natDecChars s30.toNat)
      (lineCh (indentSpaces ind1).data "rank" ('"' :: escChars rank.data ++ ['"'])
      (lineCh (indentSpaces ind1).data "purchases10" (natDecChars p10.toNat)
      ('\n' :: ((indentSpaces ind1).data ++ ['\x7d']))))))))) := by
  have dj := pyIntRepr_nonneg_data hj
  have d1 := pyIntRepr_nonneg_data h1
  have d2 := pyIntRepr_nonneg_data h2
  have d3 := pyIntRepr_nonneg_data h3
  have d4 := pyIntRepr_nonneg_data h4
  simp [format_lua_value, formatEntries, luaKeyStr, lineCh, fieldLit,
    escapeQuotes, dj, d1, d2, d3, d4, String.data_append, List.append_assoc]


theorem isDigit_not_quote {c : Char} (h : isDigitChar c = true) : c ≠ '"' := by
  intro hc; subst hc; exact absurd h (by decide)

theorem matchRosterAt_anchor : ∀ c cs, c ≠ '[' → matchRosterAt (c :: cs) = none :=
  fun _ cs hc => matchRosterAt_head_ne cs hc

theorem lineCh_append (sp1 : List Char) (f : String) (v r t : List Char) :
    lineCh sp1 f v r ++ t = lineCh sp1 f v (r ++ t) := by
  simp [lineCh, List.append_assoc]

theorem scanAll_nil_of_no_lb {α : Type} (f : List Char → Option (α × List Char))
    (Hhead : ∀ c cs, c ≠ '[' → f (c :: cs) = none) {l : List Char}
    (hl : ∀ c ∈ l, c ≠ '[') : scanAllFrom f l = [] := by
  have h := scanAll_skip f Hhead l [] hl
  simpa using h

theorem formatItems_data (e : PyVal) (rest : List PyVal) (ind i : Nat) :
    (formatItems (e :: rest) (indentSpaces ind) ind i).data =
      '\n' :: ((indentSpaces ind).data ++ (' ' :: ' ' :: ' ' :: ' ' ::
        ('[' :: (natDecChars i ++ (']' :: ' ' :: '=' :: ' ' ::
          ((format_lua_value e (ind + 1)).data ++
            (',' :: (formatItems rest (indentSpaces ind) ind (i + 1)).data))))))) := by
  simp [formatItems, pyNatStr, String.data_append, List.append_assoc]

theorem rosterScan_formatItems (ind : Nat) :
    ∀ (entries : List PyVal) (i : Nat) (tail : List Char),
      (∀ e ∈ entries, goodEntry e) → (∀ c ∈ tail, c ≠ '[') →
      scanAllFrom matchRosterAt
        ((formatItems entries (indentSpaces ind) ind i).data ++ tail) =
        entries.map entryQuadOf := by
  intro entries
  induction entries with
  | nil =>
    intro i tail _ htail
    rw [show (formatItems [] (indentSpaces ind) ind i).data = [] from rfl,
      List.nil_append]
    simp only [List.map_nil]
    exact scanAll_nil_of_no_lb matchRosterAt matchRosterAt_anchor htail
  | cons e rest ih =>
    intro i tail hgood htail
    obtain ⟨account, rank, joined, s10v, p30v, s30v, p10v, he, hjnn, h1nn,
      h2nn, h3nn, h4nn, hacc, hrank⟩ := hgood e (by simp)
    subst he
    have hspd := indentSpaces_no_lb ind
    have hsp1 := indentSpaces_no_lb (ind + 1)
    have hshape1 : ∀ X : List Char, '\n' :: ((indentSpaces ind).data ++
        ' ' :: ' ' :: ' ' :: ' ' :: X) =
        ('\n' :: ((indentSpaces ind).data ++ [' ', ' ', ' ', ' '])) ++ X :=
      fun X => by simp [List.append_assoc]
    rw [formatItems_data,
      entry_data (ind + 1) account rank joined s10v p30v s30v p10v hjnn h1nn
        h2nn h3nn h4nn]
    simp only [List.cons_append, List.nil_append, List.append_assoc,
      List.singleton_append, lineCh_append]
    rw [hshape1]
    rw [scanAll_skip _ matchRosterAt_anchor _ _
      (no_lb_cons (by decide) (no_lb_append hspd (by decide)))]
    obtain ⟨d, ds, hds⟩ := List.exists_cons_of_ne_nil (natDecChars_ne_nil i)
    have hdig : ∀ c ∈ natDecChars i, isDigitChar c = true :=
      fun c hc => natDecChars_digits i c hc
    rw [hds]
    simp only [List.cons_append]
    rw [scanAll_cons_none _ (roster_no_match_digit
      (isDigit_not_quote (hdig d (by rw [hds]; simp))) _)]
    have hshape2 : ∀ Y : List Char, d :: (ds ++ ']' :: ' ' :: '=' :: ' ' :: Y) =
        (d :: (ds ++ [']', ' ', '=', ' '])) ++ Y :=
      fun Y => by simp [List.append_assoc]
    rw [hshape2]
    have hdds : ∀ c ∈ d :: (ds ++ [']', ' ', '=', ' ']), c ≠ '[' := by
      apply no_lb_cons
      · exact isDigit_not_lbracket (hdig d (by rw [hds]; simp))
      · apply no_lb_append
        · intro c hc
          exact isDigit_not_lbracket (hdig c (by rw [hds]; simp [hc]))
        · decide
    rw [scanAll_skip _ matchRosterAt_anchor _ _ hdds,
      scanAll_cons_none _ (matchRosterAt_anchor '\x7b' _ (by decide))]
    have hav : ∀ c ∈ '"' :: (escChars account.data ++ ['"']), c ≠ '[' :=
      no_lb_cons (by decide) (no_lb_append (escChars_no_lb _ hacc) (by decide))
    have hrv : ∀ c ∈ '"' :: (escChars rank.data ++ ['"']), c ≠ '[' :=
      no_lb_cons (by decide) (no_lb_append (escChars_no_lb _ hrank) (by decide))
    rw [(scan_skip_line matchRosterAt matchRosterAt_anchor _ hsp1 "account"
        (by decide) _ _ hav roster_no_match_account).1,
      (scan_skip_line matchRosterAt matchRosterAt_anchor _ hsp1 "joined"
        (by decide) _ _ (natDecChars_no_lb _) roster_no_match_joined).1,
      lineCh_decomp,
      scanAll_skip _ matchRosterAt_anchor _ _ (line_prefix_no_lb hsp1),
      scanAll_head_matched _ matchRosterAt_shrink (by simp [fieldLit])
        (matchRosterAt_entry _ hsp1 _ hrv _ _ _ _
          (natDecChars_ne_nil _) (natDecChars_digits _)
          (natDecChars_ne_nil _) (natDecChars_digits _)
          (natDecChars_ne_nil _) (natDecChars_digits _)
          (natDecChars_ne_nil _) (natDecChars_digits _) _)]
    have hshape3 : ∀ Z : List Char, ',' :: '\n' :: ((indentSpaces (ind + 1)).data ++
        '\x7d' :: ',' :: Z) =
        (',' :: '\n' :: ((indentSpaces (ind + 1)).data ++ ['\x7d', ','])) ++ Z :=
      fun Z => by simp [List.append_assoc]
    rw [hshape3]
    rw [scanAll_skip _ matchRosterAt_anchor _ _
      (no_lb_cons (by decide) (no_lb_cons (by decide)
        (no_lb_append hsp1 (by decide))))]
    rw [ih (i + 1) tail (fun x hx => hgood x (by simp [hx])) htail]
    simp [entryQuadOf, natOf, dictLookup, lookupKey, parseFold_natDecChars]


theorem rosterScan_entries (ind : Nat) (entries : List PyVal)
    (hgood : ∀ e ∈ entries, goodEntry e) :
    rosterScan (format_lua_value (.list entries) ind) =
      entries.map entryQuadOf := by
  cases entries with
  | nil => rfl
  | cons e rest =>
    unfold rosterScan
    have hdata : (format_lua_value (.list (e :: rest)) ind).data =
        '\x7b' :: ((formatItems (e :: rest) (indentSpaces ind) ind 1).data ++
          ('\n' :: ((indentSpaces ind).data ++ ['\x7d']))) := by
      simp [format_lua_value, String.data_append, List.append_assoc]
    rw [hdata, scanAll_cons_none _ (matchRosterAt_anchor '\x7b' _ (by decide))]
    exact rosterScan_formatItems ind (e :: rest) 1 _ hgood
      (no_lb_cons (by decide) (no_lb_append (indentSpaces_no_lb ind) (by decide)))

theorem generate_roster_data_good (s : Gen) (n : Nat) (entries : List PyVal)
    (s1 : Gen) (h : generate_roster_data s n = some (entries, s1)) :
    ∀ e ∈ entries, goodEntry e := by
  induction n generalizing s entries s1 with
  | zero =>
    unfold generate_roster_data at h
    injection h with h
    injection h with h1 h2
    subst h1
    intro e he
    cases he
  | succ n ih =>
    unfold generate_roster_data at h
    cases he : generate_roster_entry s with
    | none => rw [he] at h; simp at h
    | some pe =>
      obtain ⟨e0, sa⟩ := pe
      rw [he] at h
      simp only [Option.bind_eq_bind, Option.some_bind] at h
      cases hrest : generate_roster_data sa n with
      | none => rw [hrest] at h; simp at h
      | some pr =>
        obtain ⟨rest, sb⟩ := pr
        rw [hrest] at h
        simp only [Option.some_bind] at h
        injection h with h
        injection h with h1 h2
        subst h1
        intro e hm
        rcases List.mem_cons.mp hm with rfl | hm2
        · exact generate_roster_entry_good he
        · exact ih sa rest sb hrest e hm2


/-! ### Further helper lemmas for the claims -/

theorem generate_roster_entry_ok {s : Gen} {e : PyVal} {s1 : Gen}
    (h : generate_roster_entry s = some (e, s1)) : rosterEntryOK e := by
  unfold generate_roster_entry at h
  cases h30 : randint 0 5000000 s with
  | none => rw [h30] at h; simp at h
  | some p30 =>
    obtain ⟨v30, sa⟩ := p30
    have hb30 := randint_bounds (by norm_num) h30
    rw [h30] at h
    simp only [Option.bind_eq_bind, Option.some_bind] at h
    cases hq30 : randint 0 100000 sa with
    | none => rw [hq30] at h; simp at h
    | some q30 =>
      obtain ⟨w30, sb⟩ := q30
      have hbw30 := randint_bounds (by norm_num) hq30
      rw [hq30] at h
      simp only [Option.some_bind] at h
      cases h10 : counter10_of v30 sb with
      | none => rw [h10] at h; simp at h
      | some p10 =>
        obtain ⟨v10, sc⟩ := p10
        have hb10 := counter10_of_bounds hb30.1 h10
        rw [h10] at h
        simp only [Option.some_bind] at h
        cases hq10 : counter10_of w30 sc with
        | none => rw [hq10] at h; simp at h
        | some q10 =>
          obtain ⟨w10, sd⟩ := q10
          have hbw10 := counter10_of_bounds hbw30.1 hq10
          rw [hq10] at h
          simp only [Option.some_bind] at h
          cases hj : randint 0 ((generate_username sd).2.now : Int)
              (generate_username sd).2 with
          | none => rw [hj] at h; simp at h
          | some pj =>
            obtain ⟨vj, sf⟩ := pj
            rw [hj] at h
            simp only [Option.some_bind] at h
            injection h with h
            injection h with h1 h2
            subst h1
            exact ⟨v10, v30, w10, w30, rfl, rfl, rfl, rfl,
              hb10.2.1, hbw10.2.1, hb10.2.2, hbw10.2.2⟩

theorem adjectives_title_upper :
    ∀ w ∈ ADJECTIVES, ∀ c ∈ (pyTitle w).data.take 1, c.isUpper = true := by
  decide

theorem attempt_name_shape (s : Gen) :
    ∃ adj, adj ∈ ADJECTIVES ∧ ∃ rest,
      (attempt_name s).1 = "@" ++ pyTitle adj ++ rest := by
  have hA : (ADJECTIVES : List String) ≠ [] := by simp [ADJECTIVES]
  have h9 : ¬((999 : Int) < 1) := by norm_num
  unfold attempt_name
  cases hc1 : pyChoice ADJECTIVES s with
  | mk adj s1 =>
    have hadj : adj ∈ ADJECTIVES := by
      have hm := pyChoice_mem ADJECTIVES hA s
      rw [hc1] at hm; exact hm
    cases hc2 : pyChoice NOUNS s1 with
    | mk noun s2 =>
      cases hv : randomLt 3 s2 with
      | mk vary s3 =>
        refine ⟨adj, hadj, ?_⟩
        cases vary
        · simp only [hc1, hc2, hv, Bool.false_eq_true, if_false]
          exact ⟨pyTitle noun, by simp [String.append_assoc]⟩
        · simp only [hc1, hc2, hv, if_true, randint, draw, h9]
          simp only [if_false]
          exact ⟨pyTitle noun ++ pyIntRepr (1 + (s3.entropy s3.pos : Int) % 999),
            by simp [String.append_assoc]⟩

theorem username_attempts_shape : ∀ fuel s u s1,
    username_attempts fuel s = (some u, s1) →
    ∃ adj, adj ∈ ADJECTIVES ∧ ∃ rest, u = "@" ++ pyTitle adj ++ rest := by
  intro fuel
  induction fuel with
  | zero => intro s u s1 h; simp [username_attempts] at h
  | succ fuel ih =>
    intro s u s1 h
    rw [username_attempts] at h
    cases ha : attempt_name s with
    | mk username s4 =>
      rw [ha] at h
      dsimp only at h
      by_cases hin : username ∈ s4.used_usernames
      · rw [if_pos hin] at h
        exact ih s4 u s1 h
      · rw [if_neg hin] at h
        obtain ⟨adj, hadj, rest, hshape⟩ := attempt_name_shape s
        rw [ha] at hshape
        injection h with h1 h2
        injection h1 with h1
        subst h1
        exact ⟨adj, hadj, rest, hshape⟩

theorem pyNatStr_data (n : Nat) : (pyNatStr n).data = natDecChars n := rfl

theorem candName_inj (base : String) : ∀ {j k : Nat},
    candName base j = candName base k → j = k := by
  intro j k h
  have hd := congrArg String.data h
  unfold candName at hd
  simp only [String.data_append, pyNatStr_data, List.append_assoc] at hd
  have h2 := List.append_cancel_left hd
  have h3 := List.append_cancel_left h2
  have h4 := List.append_cancel_right h3
  exact natDecChars_inj h4

theorem unique_loop_spec (fs : List String) (base : String) :
    ∀ fuel counter, 1 ≤ counter →
      (∃ j, counter ≤ j ∧ j < counter + fuel ∧ candName base j ∉ fs) →
      ∃ k, counter ≤ k ∧
        unique_loop fs (splitext base).1 (splitext base).2 fuel counter =
          some (candName base k) ∧
        candName base k ∉ fs ∧
        (∀ j, counter ≤ j → j < k → candName base j ∈ fs) := by
  intro fuel
  induction fuel with
  | zero =>
    rintro counter h1 ⟨j, hj1, hj2, hj3⟩
    exact absurd hj2 (by omega)
  | succ fuel ih =>
    rintro counter hc ⟨j, hj1, hj2, hj3⟩
    have hcn : (splitext base).1 ++ "_" ++ pyNatStr counter ++ (splitext base).2 =
        candName base counter := rfl
    by_cases hmem : candName base counter ∈ fs
    · have hne : j ≠ counter := by
        intro heq
        rw [heq] at hj3
        exact hj3 hmem
      obtain ⟨k, hk1, hk2, hk3, hk4⟩ := ih (counter + 1) (by omega)
        ⟨j, by omega, by omega, hj3⟩
      refine ⟨k, by omega, ?_, hk3, ?_⟩
      · rw [unique_loop, hcn, if_pos hmem]
        exact hk2
      · intro j2 hj2a hj2b
        rcases Nat.eq_or_lt_of_le hj2a with heq | hlt
        · rw [← heq]; exact hmem
        · exact hk4 j2 hlt hj2b
    · refine ⟨counter, le_refl _, ?_, hmem, ?_⟩
      · rw [unique_loop, hcn, if_neg hmem]
      · intro j2 h1 h2
        exact absurd h2 (by omega)

theorem exists_unused_cand (fs : List String) (base : String) :
    ∃ j, 1 ≤ j ∧ j < 1 + (fs.length + 1) ∧ candName base j ∉ fs := by
  by_contra hall
  push_neg at hall
  have hsub : ((List.range (fs.length + 1)).map
      (fun i => candName base (i + 1))) ⊆ fs := by
    intro x hx
    rw [List.mem_map] at hx
    obtain ⟨i, hi, rfl⟩ := hx
    rw [List.mem_range] at hi
    exact hall (i + 1) (by omega) (by omega)
  have hinj : Function.Injective (fun i => candName base (i + 1)) := by
    intro a b hab
    have h := candName_inj base hab
    omega
  have hnd := (List.nodup_range (fs.length + 1)).map hinj
  have hlen := (hnd.subperm hsub).length_le
  simp only [List.length_map, List.length_range] at hlen
  omega

theorem fieldLit_ne_nil (field : String) : fieldLit field ≠ [] := by
  simp [fieldLit]

theorem single_field_data (field : String) (n : Nat) :
    (format_lua_value (.dict [(.str field, .int (n : Int))]) 0).data =
      ['\x7b', '\n', ' ', ' ', ' ', ' '] ++
        (fieldLit field ++ ' ' :: '=' :: ' ' ::
          (natDecChars n ++ [',', '\n', '\x7d'])) := by
  have hn : ¬((n : Int) < 0) := by omega
  simp [format_lua_value, formatEntries, luaKeyStr, indentSpaces, pyIntRepr,
    pyNatStr, fieldLit, String.data_append, hn, Int.toNat_natCast]

theorem extract_single (field : String) (n : Nat) :
    scanAllFrom (matchFieldAt false (fieldLit field))
      (format_lua_value (.dict [(.str field, .int (n : Int))]) 0).data = [n] ∧
    scanFirst (matchFieldAt false (fieldLit field))
      (format_lua_value (.dict [(.str field, .int (n : Int))]) 0).data =
      some (n, [',', '\n', '\x7d']) := by
  have Hhead : ∀ c cs, c ≠ '[' →
      matchFieldAt false (fieldLit field) (c :: cs) = none :=
    fun c cs hc => matchField_lit_head_ne false field cs hc
  have Hf := matchFieldAt_shrink3 false (fieldLit field)
  have hmatch : matchFieldAt false (fieldLit field)
      (fieldLit field ++ ' ' :: '=' :: ' ' ::
        (natDecChars n ++ [',', '\n', '\x7d'])) =
      some (parseFold (natDecChars n) 0, [',', '\n', '\x7d']) :=
    matchFieldAt_exact_nocomma _ _ ',' ['\n', '\x7d'] (natDecChars_ne_nil n)
      (fun x hx => natDecChars_digits n x hx) (by decide)
  rw [parseFold_natDecChars] at hmatch
  have hpre : ∀ c ∈ (['\x7b', '\n', ' ', ' ', ' ', ' '] : List Char),
      c ≠ '[' := by decide
  have htail : ∀ c ∈ ([',', '\n', '\x7d'] : List Char), c ≠ '[' := by decide
  rw [single_field_data]
  constructor
  · rw [scanAll_skip _ Hhead _ _ hpre,
      scanAll_head_matched _ Hf (by simp [fieldLit]) hmatch]
    rw [show ([',', '\n', '\x7d'] : List Char) =
        [',', '\n', '\x7d'] ++ [] from by simp,
      scanAll_skip _ Hhead _ _ htail]
    rfl
  · rw [scanFirst_skip _ Hhead _ _ hpre]
    exact scanFirst_head_matched _ (by simp [fieldLit]) hmatch

/-! ### The claims -/

/-- Claim C1: every roster entry produced by `generate_roster_data`, for any
entry count and any entropy, satisfies sales10 ≤ sales30 and
purchases10 ≤ purchases30, and a 30-day counter of 0 forces the matching
10-day counter to be exactly 0. -/
theorem claim_C1_roster_invariant (s : Gen) (n : Nat) (entries : List PyVal)
    (s1 : Gen) (h : generate_roster_data s n = some (entries, s1)) :
    ∀ e ∈ entries, rosterEntryOK e := by
  induction n generalizing s entries s1 with
  | zero =>
    unfold generate_roster_data at h
    injection h with h
    injection h with h1 h2
    subst h1
    intro e he
    cases he
  | succ n ih =>
    unfold generate_roster_data at h
    cases he : generate_roster_entry s with
    | none => rw [he] at h; simp at h
    | some pe =>
      obtain ⟨e0, sa⟩ := pe
      rw [he] at h
      simp only [Option.bind_eq_bind, Option.some_bind] at h
      cases hrest : generate_roster_data sa n with
      | none => rw [hrest] at h; simp at h
      | some pr =>
        obtain ⟨rest, sb⟩ := pr
        rw [hrest] at h
        simp only [Option.some_bind] at h
        injection h with h
        injection h with h1 h2
        subst h1
        intro e hm
        rcases List.mem_cons.mp hm with rfl | hm2
        · exact generate_roster_entry_ok he
        · exact ih sa rest sb hrest e hm2

/-- Witness for C1: the entry generated from the all-zero entropy stream
satisfies the invariant. -/
theorem claim_C1_witness : rosterEntryOK rosterDemoEntry := by
  have hgen : generate_roster_data gen0 1 = some ([rosterDemoEntry],
      { entropy := fun _ => 0, pos := 8, used_usernames := ["@ActiveArcher1"],
        used_mail_ids := [], now := 0 }) := by rfl
  exact claim_C1_roster_invariant gen0 1 [rosterDemoEntry] _ hgen
    rosterDemoEntry (by simp)

/-- Claim C2 (code bug): `format_lua_value` does NOT render booleans as the
literals `"true"`/`"false"`.  Python's `bool` is a subclass of `int`, so
booleans are caught by the earlier `isinstance(value, (int, float))` branch
and rendered via `str()` as `"True"`/`"False"`; the later boolean branch is
dead code.  This theorem evaluates the code at the failing inputs. -/
theorem claim_C2_bool_serialization :
    format_lua_value (.bool true) 0 = "True" ∧
    format_lua_value (.bool false) 0 = "False" ∧
    format_lua_value (.bool true) 0 ≠ "true" ∧
    format_lua_value (.bool false) 0 ≠ "false" := by
  refine ⟨rfl, rfl, ?_, ?_⟩ <;> decide

/-- Counterexample for C3: ticket cost 1 passes the CLI validation, but the
invalid branch of `generate_mail_data` then calls `random.randint(1, 0)`,
whose empty range raises `ValueError` — the branch does not execute without
error and produces no amount. -/
theorem claim_C3_counterexample :
    cli_accepts_ticket_cost 1 = true ∧ mail_amount_invalid 1 gen0 = none := by
  constructor
  · rfl
  · rfl

/-- Claim C3 (amended): for every ticket cost of at least 2 — all
CLI-accepted costs except 1 — the invalid branch of `generate_mail_data`
executes without error and produces an amount whose remainder modulo the
ticket cost is strictly between 0 and the ticket cost. -/
theorem claim_C3_invalid_branch (t : Int) (s : Gen) (ht : 2 ≤ t) :
    ∃ amount s1, mail_amount_invalid t s = some (amount, s1) ∧
      0 < amount % t ∧ amount % t < t := by
  have h1 : ¬((1000 : Int) < 1) := by norm_num
  have h2 : ¬(t - 1 < 1) := by omega
  have h3 : t - 1 - 1 + 1 = t - 1 := by ring
  set k0 : Int := (s.entropy s.pos : Int) with hk0
  set k1 : Int := (s.entropy (s.pos + 1) : Int) with hk1
  have hoffl : 0 ≤ k1 % (t - 1) := Int.emod_nonneg _ (by omega)
  have hoffu : k1 % (t - 1) < t - 1 := Int.emod_lt_of_pos _ (by omega)
  have hmod : ((1 + k0 % 1000) * t + (1 + k1 % (t - 1))) % t =
      1 + k1 % (t - 1) := by
    rw [add_comm ((1 + k0 % 1000) * t) _, Int.add_mul_emod_self]
    exact Int.emod_eq_of_lt (by omega) (by omega)
  refine ⟨(1 + k0 % 1000) * t + (1 + k1 % (t - 1)),
    { s with pos := s.pos + 2 }, ?_, ?_, ?_⟩
  · simp only [mail_amount_invalid, randint, draw, h1, h2, h3, if_false,
      Option.bind_eq_bind, Option.some_bind]
    norm_num
  · rw [hmod]; omega
  · rw [hmod]; omega

/-- Witness for C3 (amended) at ticket cost 2. -/
theorem claim_C3_witness :
    (2 : Int) ≤ 2 ∧ ∃ amount s1, mail_amount_invalid 2 gen0 = some (amount, s1) ∧
      0 < amount % 2 ∧ amount % 2 < 2 :=
  ⟨by norm_num, claim_C3_invalid_branch 2 gen0 (by norm_num)⟩

/-- Claim C4: the roster validator flags a violation for an extracted
quadruple exactly when sales10 > sales30 or purchases10 > purchases30; it
returns `True` iff zero violations were flagged over the whole input, and
the process exit code is 0 on `True` and 1 on `False` (for a correct
argument count). -/
theorem claim_C4_roster_validator (content : String) (argv : List String)
    (h2 : argv.length = 2) :
    (∀ i q, quad_issue_msgs i q ≠ [] ↔
      (q.sales10 > q.sales30 ∨ q.purchases10 > q.purchases30)) ∧
    (validate_roster_data content = true ↔
      roster_issues (rosterScan content) = []) ∧
    (validate_roster_data content = true ↔
      ∀ q ∈ rosterScan content,
        q.sales10 ≤ q.sales30 ∧ q.purchases10 ≤ q.purchases30) ∧
    (validate_main argv content =
      if validate_roster_data content then 0 else 1) ∧
    (validate_roster_data content = false → validate_main argv content = 1) := by
  have hiff : validate_roster_data content = true ↔
      roster_issues (rosterScan content) = [] := by
    simp [validate_roster_data, List.isEmpty_iff]
  refine ⟨?_, hiff, ?_, ?_, ?_⟩
  · intro i q
    unfold quad_issue_msgs
    by_cases ha : q.sales10 > q.sales30 <;>
      by_cases hb : q.purchases10 > q.purchases30 <;>
      simp [ha, hb]
  · exact hiff.trans (roster_issues_nil_iff _)
  · simp [validate_main, h2]
  · intro hfalse
    simp [validate_main, h2, hfalse]

/-- Witness for C4 at an empty file and a two-element argv. -/
theorem claim_C4_witness :
    ((["validate.py", "f.lua"] : List String).length = 2) ∧
    ((∀ i q, quad_issue_msgs i q ≠ [] ↔
      (q.sales10 > q.sales30 ∨ q.purchases10 > q.purchases30)) ∧
    (validate_roster_data "" = true ↔ roster_issues (rosterScan "") = []) ∧
    (validate_roster_data "" = true ↔
      ∀ q ∈ rosterScan "",
        q.sales10 ≤ q.sales30 ∧ q.purchases10 ≤ q.purchases30) ∧
    (validate_main ["validate.py", "f.lua"] "" =
      if validate_roster_data "" then 0 else 1) ∧
    (validate_roster_data "" = false →
      validate_main ["validate.py", "f.lua"] "" = 1)) :=
  ⟨rfl, claim_C4_roster_validator "" ["validate.py", "f.lua"] rfl⟩

/-- Counterexample for C5: a file whose single amount (4) is not divisible
by its ticket cost (3) is classified as inconsistent by `check_amounts`,
yet the process exit code with one filename argument is 0, not the claimed 1. -/
theorem claim_C5_counterexample :
    check_amounts c5BadContent = .report 3 [] [4] ∧
    check_amounts_main ["check_amounts.py", "bad.lua"] c5BadContent = 0 := by
  constructor
  · rfl
  · rfl

/-- Claim C5 (amended): invoked with one filename argument, the amount
validator's process exits 0 regardless of the validation outcome —
inconsistent report, missing ticket cost, or no amounts — because
`__main__` never inspects the result; only a wrong argument count (or an
uncaught `ZeroDivisionError` for ticket cost 0) exits 1. -/
theorem claim_C5_exit_codes (argv : List String) (content : String)
    (h2 : argv.length = 2)
    (hnc : amountsCrashed (check_amounts content) = false) :
    check_amounts_main argv content = 0 ∧
    ∀ argv2 : List String, argv2.length ≠ 2 →
      check_amounts_main argv2 content = 1 := by
  constructor
  · simp [check_amounts_main, h2, hnc]
  · intro argv2 hh
    simp [check_amounts_main, hh]

/-- Witness for C5 (amended) on the inconsistent file. -/
theorem claim_C5_witness :
    (["check_amounts.py", "bad.lua"] : List String).length = 2 ∧
    amountsCrashed (check_amounts c5BadContent) = false ∧
    (check_amounts_main ["check_amounts.py", "bad.lua"] c5BadContent = 0 ∧
      ∀ argv2 : List String, argv2.length ≠ 2 →
        check_amounts_main argv2 c5BadContent = 1) :=
  ⟨rfl, rfl, claim_C5_exit_codes _ _ rfl rfl⟩

/-- Claim C6: `get_unique_filename` returns the requested path unchanged
when no file exists at it; otherwise it returns the path with the smallest
suffix `_k` (k = 1, 2, …) inserted before the extension such that no file
exists at the suffixed path; in particular an existing `out.lua` yields
`out_1.lua`, and then `out_2.lua`, never reusing an existing path. -/
theorem claim_C6_unique_filename (fs : List String) (base : String) :
    (base ∉ fs → get_unique_filename fs base = some base) ∧
    (base ∈ fs → ∃ k, 1 ≤ k ∧
      get_unique_filename fs base = some (candName base k) ∧
      candName base k ∉ fs ∧ ∀ j, 1 ≤ j → j < k → candName base j ∈ fs) ∧
    get_unique_filename ["out.lua"] "out.lua" = some "out_1.lua" ∧
    get_unique_filename ["out.lua", "out_1.lua"] "out.lua" =
      some "out_2.lua" := by
  refine ⟨?_, ?_, by rfl, by rfl⟩
  · intro hnm
    simp [get_unique_filename, hnm]
  · intro hm
    obtain ⟨j, hj1, hj2, hj3⟩ := exists_unused_cand fs base
    obtain ⟨k, hk1, hk2, hk3, hk4⟩ := unique_loop_spec fs base
      (fs.length + 1) 1 (le_refl 1) ⟨j, hj1, hj2, hj3⟩
    refine ⟨k, hk1, ?_, hk3, hk4⟩
    rw [get_unique_filename, if_pos hm]
    exact hk2

/-- Witness for C6: a fresh path comes back unchanged. -/
theorem claim_C6_witness :
    (("x.lua" : String) ∉ ([] : List String)) ∧
    get_unique_filename [] "x.lua" = some "x.lua" :=
  ⟨by simp, (claim_C6_unique_filename [] "x.lua").1 (by simp)⟩

/-- Claim C7: round-trip — serializing a mapping that binds `"amount"` (or
`"ticket_cost"`) to any non-negative integer n with `format_lua_value` and
re-extracting the field with the validators' pattern recovers exactly n. -/
theorem claim_C7_round_trip (n : Nat) :
    extractAmounts
      (format_lua_value (.dict [(.str "amount", .int (n : Int))]) 0) = [n] ∧
    searchTicketCost
      (format_lua_value (.dict [(.str "ticket_cost", .int (n : Int))]) 0) =
      some n := by
  constructor
  · exact (extract_single "amount" n).1
  · unfold searchTicketCost
    rw [(extract_single "ticket_cost" n).2]

/-- Claim C8: `format_lua_value` renders an empty mapping and an empty
sequence both as exactly the two-character string `{}`, at every
indentation level. -/
theorem claim_C8_empty_containers (indent : Nat) :
    format_lua_value (.dict []) indent = "\x7b\x7d" ∧
    format_lua_value (.list []) indent = "\x7b\x7d" :=
  ⟨rfl, rfl⟩

/-- Claim C9: every entry built by `generate_roster_data` carries its keys
in the fixed insertion order `account, joined, sales10, purchases30,
sales30, rank, purchases10`, and the roster validator's pattern extraction
over the serialized entries yields exactly one quadruple per entry, each
counter matched to its own field. -/
theorem claim_C9_key_order_extraction (s : Gen) (n : Nat)
    (entries : List PyVal) (s1 : Gen) (indent : Nat)
    (h : generate_roster_data s n = some (entries, s1)) :
    (∀ e ∈ entries, dictKeys e = rosterKeys) ∧
    rosterScan (format_lua_value (.list entries) indent) =
      entries.map entryQuadOf := by
  have hgood := generate_roster_data_good s n entries s1 h
  constructor
  · intro e he
    obtain ⟨account, rank, joined, s10v, p30v, s30v, p10v, he2, _⟩ :=
      hgood e he
    subst he2
    rfl
  · exact rosterScan_entries indent entries hgood

/-- Witness for C9 on the entry generated from the all-zero entropy stream. -/
theorem claim_C9_witness :
    (∀ e ∈ [rosterDemoEntry], dictKeys e = rosterKeys) ∧
    rosterScan (format_lua_value (.list [rosterDemoEntry]) 0) =
      [rosterDemoEntry].map entryQuadOf := by
  have hgen : generate_roster_data gen0 1 = some ([rosterDemoEntry],
      { entropy := fun _ => 0, pos := 8, used_usernames := ["@ActiveArcher1"],
        used_mail_ids := [], now := 0 }) := by rfl
  exact claim_C9_key_order_extraction gen0 1 [rosterDemoEntry] _ 0 hgen

/-- Claim C10: every display name returned by `generate_username`, the
timestamp fallback path included, begins with `@` followed by a
`title()`-capitalized adjective from the adjective list (whose title-cased
first character is uppercase). -/
theorem claim_C10_username_shape (s : Gen) :
    (∃ adj, adj ∈ ADJECTIVES ∧ ∃ rest,
      (generate_username s).1 = "@" ++ pyTitle adj ++ rest) ∧
    (∀ w ∈ ADJECTIVES, ∀ c ∈ (pyTitle w).data.take 1, c.isUpper = true) := by
  refine ⟨?_, adjectives_title_upper⟩
  unfold generate_username
  cases hu : username_attempts 100 s with
  | mk ou s1 =>
    cases ou with
    | some u =>
      simp only [hu]
      exact username_attempts_shape 100 s u s1 hu
    | none =>
      simp only [hu]
      cases hc : pyChoice ADJECTIVES s1 with
      | mk adj s2 =>
        have hadj : adj ∈ ADJECTIVES := by
          have hm := pyChoice_mem ADJECTIVES (by simp [ADJECTIVES]) s1
          rw [hc] at hm; exact hm
        simp only [hc]
        exact ⟨adj, hadj, ⟨⟨last6 (natDecChars s1.now)⟩, rfl⟩⟩

end Raffle
